import Mathlib

/-!
Verification of the inbox-zero triage pipeline (`email_triage.py`).

The development shallowly embeds the core of the pipeline:
* the Python string helpers used by the phase-2 refinement engine
  (subject normalisation, word splitting, Jaccard similarity),
* the phase-2 analysis (`phase2_analyse`): time-decay buckets, duplicate
  bursts and the final archive/keep id sets,
* the UID-based archiver (`archive_messages`, `verify_archive_safety`,
  `scan_inbox_uids_by_sender`, `scan_inbox_uids_for_phase2`),
* the checkpointed batch fetchers (`fetch_metadata`, `fetch_bodies_batch`),
* the atomic checkpoint save (`save_checkpoint`: write temp file, rename).

Messages carry their date as the already parsed timestamp (seconds,
`Option Int`), standing for the value `_parse_date` produces from the stored
date string (`none` when unparseable); one day is 86400 seconds and
`timedelta.days` floors, hence `Int.fdiv`.  Mail headers are modelled after
MIME decoding (`decode_header_value` is the identity on plain text).
-/

namespace InboxZero

/-! ### Python string primitives -/

/-- Whitespace, as Python's `str.split()` / `\s` recognise it (ASCII range). -/
def pyIsSpace (c : Char) : Bool :=
  c = ' ' || c = '\t' || c = '\n' || c = '\r' || c = '\x0b' || c = '\x0c'

/-- Python `str.lower()` (ASCII model, as in `Char.toLower`). -/
def lowerChars (s : List Char) : List Char := s.map Char.toLower

/-- Python `str.lower()` on a whole string. -/
def lowerStr (s : String) : String := ⟨lowerChars s.data⟩

/-- Helper for `splitWs`: accumulates the current word (reversed). -/
def splitWsAux : List Char → List Char → List (List Char)
  | [], acc => if acc.isEmpty then [] else [acc.reverse]
  | c :: cs, acc =>
    if pyIsSpace c then
      if acc.isEmpty then splitWsAux cs [] else acc.reverse :: splitWsAux cs []
    else splitWsAux cs (c :: acc)

/-- Python `str.split()` with no argument: split on whitespace runs, no empty parts. -/
def splitWs (s : List Char) : List (List Char) := splitWsAux s []

/-- Python `str.strip()`: drop leading and trailing whitespace. -/
def stripChars (s : List Char) : List Char :=
  ((s.dropWhile pyIsSpace).reverse.dropWhile pyIsSpace).reverse

/-- Case-insensitive literal match at the head; returns the remainder on success. -/
def matchCI : List Char → List Char → Option (List Char)
  | [], rest => some rest
  | _ :: _, [] => none
  | p :: ps, c :: cs => if c.toLower = p.toLower then matchCI ps cs else none

/-- Match the regex tail `\s*:\s*`; returns the remainder when the colon is present. -/
def matchColonWs (s : List Char) : Option (List Char) :=
  match s.dropWhile pyIsSpace with
  | ':' :: rest => some (rest.dropWhile pyIsSpace)
  | _ => none

/-- One application of `re.sub(r'^(Re|Fwd|FW|Fw)\s*:\s*', '', subj, flags=IGNORECASE)`:
the alternatives collapse to the case-insensitive literals re / fwd / fw. -/
def stripReFwd (s : List Char) : List Char :=
  match (matchCI "re".data s).bind matchColonWs with
  | some rest => rest
  | none =>
    match (matchCI "fwd".data s).bind matchColonWs with
    | some rest => rest
    | none =>
      match (matchCI "fw".data s).bind matchColonWs with
      | some rest => rest
      | none => s

/-- Helper for `collapseWs`; the flag records whether we are inside a whitespace run. -/
def collapseWsAux : Bool → List Char → List Char
  | _, [] => []
  | inWs, c :: cs =>
    if pyIsSpace c then
      if inWs then collapseWsAux true cs else ' ' :: collapseWsAux true cs
    else c :: collapseWsAux false cs

/-- `re.sub(r'\s+', ' ', s)`: every whitespace run becomes a single space. -/
def collapseWs (s : List Char) : List Char := collapseWsAux false s

/-- `_normalise_subject`: strip one Re:/Fwd: style marker, `strip()`, collapse whitespace. -/
def normalise_subject (s : String) : String :=
  ⟨collapseWs (stripChars (stripReFwd s.data))⟩

/-- Python `" ".join(ws)`. -/
def joinWords : List (List Char) → List Char
  | [] => []
  | [w] => w
  | w :: ws => w ++ ' ' :: joinWords ws

/-- `_first_n_words`: the first `n` words, lowercased, joined by single spaces. -/
def first_n_words (s : String) (n : Nat := 4) : String :=
  ⟨joinWords (((splitWs s.data).take n).map lowerChars)⟩

/-- The set (duplicate-free list) of lowercased words of a string. -/
def wordSet (s : String) : List (List Char) := (splitWs (lowerChars s.data)).dedup

/-- `_jaccard`: word-level Jaccard similarity, 0 when either word set is empty. -/
def jaccard (a b : String) : ℚ :=
  let sa := wordSet a
  let sb := wordSet b
  if sa.isEmpty || sb.isEmpty then 0
  else ((sa.filter (fun w => sb.contains w)).length : ℚ) /
       ((sa ++ sb.filter (fun w => !sa.contains w)).length : ℚ)

/-- Literal-prefix test on character lists. -/
def startsWithChars : List Char → List Char → Bool
  | _, [] => true
  | [], _ :: _ => false
  | c :: cs, p :: ps => c = p && startsWithChars cs ps

/-- Python's substring test `sub in hay`. -/
def hasSub : List Char → List Char → Bool
  | [], sub => sub.isEmpty
  | c :: cs, sub => startsWithChars (c :: cs) sub || hasSub cs sub

/-- `any(k in hay for k in kws)`. -/
def containsKw (hay : String) (kws : List String) : Bool :=
  kws.any (fun k => hasSub hay.data k.data)

/-! ### Message records and classification heuristics -/

/-- A classified message as read from `pass2_classification.json` /
`pass2_remaining.json`.  `date` is the parsed timestamp (see module comment);
`category` and `reason` are `""` when the JSON field is absent. -/
structure Msg where
  msg_id : String
  from_email : String
  from_name : String
  subject : String
  date : Option Int
  category : String
  reason : String
deriving DecidableEq

/-- Categories that are never archived by the time-decay heuristics. -/
def KEEP_CATEGORIES : List String := ["urgent", "action_needed"]

/-- Categories considered safe for time-decay / dedup pruning. -/
def ARCHIVABLE_CATEGORIES : List String := ["archive", "reference"]

/-- `_days_old` on a parsed date: whole days between the date and `now`
(`timedelta.days` floors, hence `Int.fdiv`). -/
def days_old (date : Option Int) (now : Int) : Option Int :=
  date.map (fun d => (now - d).fdiv 86400)

/-- `_is_notification_like`: noreply/notification sender or subject patterns. -/
def is_notification_like (m : Msg) : Bool :=
  containsKw m.from_email
    ["noreply", "no-reply", "notify", "notification", "alerts", "mailer-daemon"] ||
  containsKw (lowerStr m.subject) ["notification", "alert", "reminder", "update", "digest"]

/-- `_is_receipt_like`: receipt/confirmation/order subject patterns. -/
def is_receipt_like (m : Msg) : Bool :=
  containsKw (lowerStr m.subject)
    ["receipt", "confirmation", "order", "invoice", "payment", "shipped", "delivered"]

/-- `_is_newsletter_like`: newsletter/digest/marketing patterns. -/
def is_newsletter_like (m : Msg) : Bool :=
  containsKw (lowerStr m.subject) ["newsletter", "digest", "weekly", "monthly"] ||
  containsKw (lowerStr m.reason) ["marketing", "newsletter", "promotional"] ||
  containsKw m.from_email ["newsletter", "digest", "marketing", "campaign", "promo"]

/-- `_is_security_alert`: security alert subject patterns. -/
def is_security_alert (m : Msg) : Bool :=
  containsKw (lowerStr m.subject)
    ["security alert", "sign-in", "signin", "login", "password",
     "verification code", "2fa", "two-factor"]

/-- `_is_financial`: financial records that should always be kept. -/
def is_financial (m : Msg) : Bool :=
  containsKw (lowerStr m.reason) ["financial", "tax", "hmrc", "bank", "accountant", "invoice"] ||
  containsKw (lowerStr m.subject)
    ["tax", "hmrc", "p60", "p45", "self assessment", "statement", "bank"]

/-! ### Time-decay buckets -/

/-- The `msg_ref` dictionary appended to a time-decay bucket. -/
structure MsgRef where
  msg_id : String
  from_email : String
  subject : String
  date : Option Int
  days_old : Int
deriving DecidableEq

/-- Build the `msg_ref` for a message. -/
def mkRef (m : Msg) (days : Int) : MsgRef :=
  ⟨m.msg_id, m.from_email, m.subject, m.date, days⟩

/-- The five `time_decay` lists, in the insertion order of the Python dict. -/
structure TimeDecay where
  notifications_over_7d : List MsgRef
  receipts_over_90d : List MsgRef
  security_over_30d : List MsgRef
  newsletters_over_14d : List MsgRef
  older_than_12mo : List MsgRef
deriving DecidableEq

/-- The initial (empty) `time_decay` dict. -/
def TimeDecay.empty : TimeDecay := ⟨[], [], [], [], []⟩

/-- One iteration of the time-decay loop of `phase2_analyse`: skip kept
categories, unparseable dates and financial records, then the if/elif chain,
then the independent `days > 365` review flag. -/
def decayStep (now : Int) (td : TimeDecay) (m : Msg) : TimeDecay :=
  if KEEP_CATEGORIES.contains m.category then td
  else
    match days_old m.date now with
    | none => td
    | some days =>
      if is_financial m then td
      else
        let ref := mkRef m days
        let td1 :=
          if is_notification_like m && decide (days > 7) then
            { td with notifications_over_7d := td.notifications_over_7d ++ [ref] }
          else if is_receipt_like m && decide (days > 90) && !is_financial m then
            { td with receipts_over_90d := td.receipts_over_90d ++ [ref] }
          else if is_security_alert m && decide (days > 30) then
            { td with security_over_30d := td.security_over_30d ++ [ref] }
          else if is_newsletter_like m && decide (days > 14) then
            { td with newsletters_over_14d := td.newsletters_over_14d ++ [ref] }
          else td
        if decide (days > 365) then
          { td1 with older_than_12mo := td1.older_than_12mo ++ [ref] }
        else td1

/-- The full time-decay pass over the remaining messages. -/
def time_decay (now : Int) (msgs : List Msg) : TimeDecay :=
  msgs.foldl (decayStep now) TimeDecay.empty

/-- The `msg_ref` a message contributes to the notifications bucket, if any. -/
def notif_ref (now : Int) (m : Msg) : Option MsgRef :=
  if KEEP_CATEGORIES.contains m.category then none
  else
    match days_old m.date now with
    | none => none
    | some days =>
      if is_financial m then none
      else if is_notification_like m && decide (days > 7) then some (mkRef m days)
      else none

/-- The `msg_ref` a message contributes to the receipts bucket, if any. -/
def receipt_ref (now : Int) (m : Msg) : Option MsgRef :=
  if KEEP_CATEGORIES.contains m.category then none
  else
    match days_old m.date now with
    | none => none
    | some days =>
      if is_financial m then none
      else if is_notification_like m && decide (days > 7) then none
      else if is_receipt_like m && decide (days > 90) && !is_financial m then some (mkRef m days)
      else none

/-- The `msg_ref` a message contributes to the security bucket, if any. -/
def security_ref (now : Int) (m : Msg) : Option MsgRef :=
  if KEEP_CATEGORIES.contains m.category then none
  else
    match days_old m.date now with
    | none => none
    | some days =>
      if is_financial m then none
      else if is_notification_like m && decide (days > 7) then none
      else if is_receipt_like m && decide (days > 90) && !is_financial m then none
      else if is_security_alert m && decide (days > 30) then some (mkRef m days)
      else none

/-- The `msg_ref` a message contributes to the newsletters bucket, if any. -/
def newsletter_ref (now : Int) (m : Msg) : Option MsgRef :=
  if KEEP_CATEGORIES.contains m.category then none
  else
    match days_old m.date now with
    | none => none
    | some days =>
      if is_financial m then none
      else if is_notification_like m && decide (days > 7) then none
      else if is_receipt_like m && decide (days > 90) && !is_financial m then none
      else if is_security_alert m && decide (days > 30) then none
      else if is_newsletter_like m && decide (days > 14) then some (mkRef m days)
      else none

/-- The `msg_ref` a message contributes to the 12-month review bucket, if any. -/
def review_ref (now : Int) (m : Msg) : Option MsgRef :=
  if KEEP_CATEGORIES.contains m.category then none
  else
    match days_old m.date now with
    | none => none
    | some days =>
      if is_financial m then none
      else if decide (days > 365) then some (mkRef m days)
      else none

/-- A message hits one of the four auto-archivable decay buckets. -/
def decay_hit (now : Int) (m : Msg) : Bool :=
  !(KEEP_CATEGORIES.contains m.category) &&
  (match days_old m.date now with
   | none => false
   | some days =>
     !is_financial m &&
     ((is_notification_like m && decide (days > 7)) ||
      (is_receipt_like m && decide (days > 90) && !is_financial m) ||
      (is_security_alert m && decide (days > 30)) ||
      (is_newsletter_like m && decide (days > 14))))

/-- A message is flagged into the older-than-12-months review bucket. -/
def review_flagged (now : Int) (m : Msg) : Bool :=
  !(KEEP_CATEGORIES.contains m.category) &&
  (match days_old m.date now with
   | none => false
   | some days => !is_financial m && decide (days > 365))

lemma filterMap_cons_toList (f : α → Option β) (a : α) (l : List α) :
    List.filterMap f (a :: l) = (f a).toList ++ List.filterMap f l := by
  cases h : f a <;> simp [h]

lemma decayStep_eq (now : Int) (td : TimeDecay) (m : Msg) :
    decayStep now td m =
      ⟨td.notifications_over_7d ++ (notif_ref now m).toList,
       td.receipts_over_90d ++ (receipt_ref now m).toList,
       td.security_over_30d ++ (security_ref now m).toList,
       td.newsletters_over_14d ++ (newsletter_ref now m).toList,
       td.older_than_12mo ++ (review_ref now m).toList⟩ := by
  obtain ⟨n7, r90, s30, n14, o12⟩ := td
  simp only [decayStep, notif_ref, receipt_ref, security_ref, newsletter_ref, review_ref]
  cases hd : days_old m.date now with
  | none => dsimp only; split_ifs <;> simp
  | some days => dsimp only; split_ifs <;> simp

lemma time_decay_go (now : Int) (msgs : List Msg) : ∀ td : TimeDecay,
    msgs.foldl (decayStep now) td =
      ⟨td.notifications_over_7d ++ msgs.filterMap (notif_ref now),
       td.receipts_over_90d ++ msgs.filterMap (receipt_ref now),
       td.security_over_30d ++ msgs.filterMap (security_ref now),
       td.newsletters_over_14d ++ msgs.filterMap (newsletter_ref now),
       td.older_than_12mo ++ msgs.filterMap (review_ref now)⟩ := by
  induction msgs with
  | nil => intro td; simp
  | cons m ms ih =>
    intro td
    rw [List.foldl_cons, decayStep_eq, ih]
    simp [filterMap_cons_toList]

/-- The five time-decay buckets, as filters over the input list. -/
lemma time_decay_eq (now : Int) (msgs : List Msg) :
    time_decay now msgs =
      ⟨msgs.filterMap (notif_ref now), msgs.filterMap (receipt_ref now),
       msgs.filterMap (security_ref now), msgs.filterMap (newsletter_ref now),
       msgs.filterMap (review_ref now)⟩ := by
  rw [time_decay, time_decay_go]
  simp [TimeDecay.empty]

lemma decay_hit_eq_refs (now : Int) (m : Msg) :
    decay_hit now m =
      ((notif_ref now m).isSome || (receipt_ref now m).isSome ||
       (security_ref now m).isSome || (newsletter_ref now m).isSome) := by
  simp only [decay_hit, notif_ref, receipt_ref, security_ref, newsletter_ref]
  cases hd : days_old m.date now with
  | none => dsimp only; split_ifs <;> simp_all
  | some days => dsimp only; split_ifs <;> simp_all

lemma ref_msg_id_eq {f : Int → Msg → Option MsgRef} (hform : ∀ now m r, f now m = some r → ∃ d, r = mkRef m d)
    {now : Int} {m : Msg} {r : MsgRef} (h : f now m = some r) : r.msg_id = m.msg_id := by
  obtain ⟨d, rfl⟩ := hform now m r h
  rfl

lemma notif_ref_form (now : Int) (m : Msg) (r : MsgRef) (h : notif_ref now m = some r) :
    ∃ d, r = mkRef m d := by
  unfold notif_ref at h
  cases hd : days_old m.date now with
  | none => rw [hd] at h; dsimp only at h; split_ifs at h <;> simp_all
  | some days =>
    rw [hd] at h; dsimp only at h
    split_ifs at h <;> (try exact ⟨days, (Option.some.inj h).symm⟩) <;> simp_all

lemma receipt_ref_form (now : Int) (m : Msg) (r : MsgRef) (h : receipt_ref now m = some r) :
    ∃ d, r = mkRef m d := by
  unfold receipt_ref at h
  cases hd : days_old m.date now with
  | none => rw [hd] at h; dsimp only at h; split_ifs at h <;> simp_all
  | some days =>
    rw [hd] at h; dsimp only at h
    split_ifs at h <;> (try exact ⟨days, (Option.some.inj h).symm⟩) <;> simp_all

lemma security_ref_form (now : Int) (m : Msg) (r : MsgRef) (h : security_ref now m = some r) :
    ∃ d, r = mkRef m d := by
  unfold security_ref at h
  cases hd : days_old m.date now with
  | none => rw [hd] at h; dsimp only at h; split_ifs at h <;> simp_all
  | some days =>
    rw [hd] at h; dsimp only at h
    split_ifs at h <;> (try exact ⟨days, (Option.some.inj h).symm⟩) <;> simp_all

lemma newsletter_ref_form (now : Int) (m : Msg) (r : MsgRef) (h : newsletter_ref now m = some r) :
    ∃ d, r = mkRef m d := by
  unfold newsletter_ref at h
  cases hd : days_old m.date now with
  | none => rw [hd] at h; dsimp only at h; split_ifs at h <;> simp_all
  | some days =>
    rw [hd] at h; dsimp only at h
    split_ifs at h <;> (try exact ⟨days, (Option.some.inj h).symm⟩) <;> simp_all

lemma review_ref_form (now : Int) (m : Msg) (r : MsgRef) (h : review_ref now m = some r) :
    ∃ d, r = mkRef m d := by
  unfold review_ref at h
  cases hd : days_old m.date now with
  | none => rw [hd] at h; dsimp only at h; split_ifs at h <;> simp_all
  | some days =>
    rw [hd] at h; dsimp only at h
    split_ifs at h <;> (try exact ⟨days, (Option.some.inj h).symm⟩) <;> simp_all

/-! ### Burst deduplication -/

/-- The similarity test of the dedup window: same normalised 4-word head, or
word-level Jaccard at least 0.6. -/
def similar (a b : Msg) : Bool :=
  let subj_i := normalise_subject a.subject
  let subj_j := normalise_subject b.subject
  first_n_words subj_i == first_n_words subj_j ||
    decide (jaccard subj_i subj_j ≥ (0.6 : ℚ))

/-- Sort key of the dedup pass: the parsed date attached to each message. -/
def dateLE (a b : Msg × Int) : Bool := decide (a.2 ≤ b.2)

/-- Stable insertion into a date-sorted list: the new element goes after all
existing elements whose date is not larger. -/
def insertByDate (x : Msg × Int) : List (Msg × Int) → List (Msg × Int)
  | [] => [x]
  | y :: ys => if dateLE y x then y :: insertByDate x ys else x :: y :: ys

/-- Python's `list.sort(key=date)`: a stable sort by date.  A stable sort's
output is determined by the key order alone, so any stable implementation
models `list.sort`; this is stable insertion from the left. -/
def sortByDate (l : List (Msg × Int)) : List (Msg × Int) :=
  l.foldl (fun acc x => insertByDate x acc) []

/-- The burst collected from window start `x`: messages within 24 hours of
`x` (the scan breaks at the first later one) that are similar to `x`. -/
def burstFrom (x : Msg × Int) (rest : List (Msg × Int)) : List (Msg × Int) :=
  x :: (rest.takeWhile (fun y => decide (y.2 - x.2 ≤ 86400))).filter (fun y => similar x.1 y.1)

/-- One reported duplicate burst. -/
structure DedupGroup where
  group_key : String
  sender : String
  pattern : String
  total_in_burst : Nat
  keep_msg_id : String
  archive_msg_ids : List String
deriving DecidableEq

/-- Build the group dict for a burst: sort by date, keep the newest, archive
the rest; key and pattern come from the first 4 words of the raw subject of
the burst's oldest member. -/
def mkGroup (sender : String) (burst : List (Msg × Int)) : DedupGroup :=
  let sorted := sortByDate burst
  let pat := first_n_words ((sorted.head?.map (fun x => x.1.subject)).getD "")
  { group_key := sender ++ "|" ++ pat
    sender := sender
    pattern := pat
    total_in_burst := burst.length
    keep_msg_id := ((sorted.getLast?.map (fun x => x.1.msg_id)).getD "")
    archive_msg_ids := sorted.dropLast.map (fun a => a.1.msg_id) }

/-- The sliding-window scan over one sender's date-sorted messages,
accumulating groups and skipping already-seen group keys. -/
def dedupScan (sender : String) : List (Msg × Int) → List DedupGroup → List DedupGroup
  | [], acc => acc
  | x :: rest, acc =>
    let burst := burstFrom x rest
    let acc2 :=
      if 5 ≤ burst.length then
        let g := mkGroup sender burst
        if acc.any (fun h => h.group_key == g.group_key) then acc else acc ++ [g]
      else acc
    dedupScan sender rest acc2

/-- `defaultdict` grouping of the remaining messages by sender, in insertion
order (first occurrence of each sender). -/
def groupBySender (msgs : List Msg) : List (String × List Msg) :=
  msgs.foldl (fun acc m =>
    if acc.any (fun p => p.1 == m.from_email) then
      acc.map (fun p => if p.1 == m.from_email then (p.1, p.2 ++ [m]) else p)
    else acc ++ [(m.from_email, [m])]) []

/-- Pair each message with its parsed date, dropping unparseable ones. -/
def datedOf (msgs : List Msg) : List (Msg × Int) :=
  msgs.filterMap (fun m => m.date.map (fun d => (m, d)))

/-- The dedup pass of `phase2_analyse`: senders with at least 5 messages,
dates sorted (Python's stable sort), then the sliding window. -/
def dedup_groups_of (senderGroups : List (String × List Msg)) : List DedupGroup :=
  senderGroups.foldl (fun acc sg =>
    if sg.2.length < 5 then acc
    else dedupScan sg.1 (sortByDate (datedOf sg.2)) acc) []

/-! ### The phase-2 analysis -/

/-- The ids collected from the time-decay buckets, skipping the
`older_than_12mo` review bucket (flagged for review only). -/
def td_ids (td : TimeDecay) : Finset String :=
  ((td.notifications_over_7d ++ td.receipts_over_90d ++
    td.security_over_30d ++ td.newsletters_over_14d).map MsgRef.msg_id).toFinset

/-- The ids collected from the dedup groups' archive lists. -/
def dedup_ids (groups : List DedupGroup) : Finset String :=
  ((groups.map DedupGroup.archive_msg_ids).flatten).toFinset

/-- The analysis artifact fields the archive decision depends on. -/
structure Analysis where
  already_archive : List Msg
  time_decay_buckets : TimeDecay
  dedup_groups : List DedupGroup
  archive_msg_ids : Finset String
  keep_msg_ids : Finset String

/-- `phase2_analyse`: split off already-archive messages, run time decay and
burst dedup over the remaining ones, and assemble the archive / keep id sets. -/
def phase2_analyse (msgs : List Msg) (now : Int) : Analysis :=
  let already := msgs.filter (fun m => m.category == "archive")
  let remaining := msgs.filter (fun m => !(m.category == "archive"))
  let td := time_decay now remaining
  let groups := dedup_groups_of (groupBySender remaining)
  let archiveIds := ((already.map Msg.msg_id).toFinset ∪ td_ids td) ∪ dedup_ids groups
  let allIds := (msgs.map Msg.msg_id).toFinset
  ⟨already, td, groups, archiveIds, allIds \ archiveIds⟩

/-! ### Membership characterisations -/

lemma review_flagged_eq (now : Int) (m : Msg) :
    review_flagged now m = (review_ref now m).isSome := by
  simp only [review_flagged, review_ref]
  cases hd : days_old m.date now with
  | none => dsimp only; split_ifs <;> simp_all
  | some days => dsimp only; split_ifs <;> simp_all

lemma exists_mem_append {α : Type _} {P : α → Prop} {l1 l2 : List α} :
    (∃ x ∈ l1 ++ l2, P x) ↔ (∃ x ∈ l1, P x) ∨ (∃ x ∈ l2, P x) := by
  constructor
  · rintro ⟨x, hx, hp⟩
    rcases List.mem_append.mp hx with h | h
    exacts [Or.inl ⟨x, h, hp⟩, Or.inr ⟨x, h, hp⟩]
  · rintro (⟨x, hx, hp⟩ | ⟨x, hx, hp⟩)
    exacts [⟨x, List.mem_append.mpr (Or.inl hx), hp⟩,
            ⟨x, List.mem_append.mpr (Or.inr hx), hp⟩]

lemma mem_ids_of_filterMap (now : Int) (f : Int → Msg → Option MsgRef)
    (hform : ∀ m r, f now m = some r → ∃ d, r = mkRef m d) (msgs : List Msg) (id : String) :
    (∃ r ∈ msgs.filterMap (f now), r.msg_id = id) ↔
      ∃ m ∈ msgs, (f now m).isSome = true ∧ m.msg_id = id := by
  constructor
  · rintro ⟨r, hr, rfl⟩
    rw [List.mem_filterMap] at hr
    obtain ⟨m, hm, hfm⟩ := hr
    obtain ⟨d, rfl⟩ := hform m _ hfm
    exact ⟨m, hm, by simp [hfm], rfl⟩
  · rintro ⟨m, hm, hsome, rfl⟩
    obtain ⟨r, hr⟩ := Option.isSome_iff_exists.mp hsome
    obtain ⟨d, rfl⟩ := hform m _ hr
    exact ⟨mkRef m d, List.mem_filterMap.mpr ⟨m, hm, hr⟩, rfl⟩

lemma mem_td_ids_iff (now : Int) (msgs : List Msg) (id : String) :
    id ∈ td_ids (time_decay now msgs) ↔
      ∃ m ∈ msgs, decay_hit now m = true ∧ m.msg_id = id := by
  rw [time_decay_eq]
  simp only [td_ids]
  rw [List.mem_toFinset, List.mem_map]
  simp only [exists_mem_append, mem_ids_of_filterMap now _ (notif_ref_form now) msgs,
    mem_ids_of_filterMap now _ (receipt_ref_form now) msgs,
    mem_ids_of_filterMap now _ (security_ref_form now) msgs,
    mem_ids_of_filterMap now _ (newsletter_ref_form now) msgs]
  constructor
  · rintro ((((⟨m, hm, hs, hid⟩ | ⟨m, hm, hs, hid⟩) | ⟨m, hm, hs, hid⟩) | ⟨m, hm, hs, hid⟩)) <;>
      exact ⟨m, hm, by rw [decay_hit_eq_refs]; simp [hs], hid⟩
  · rintro ⟨m, hm, hhit, hid⟩
    rw [decay_hit_eq_refs] at hhit
    simp only [Bool.or_eq_true] at hhit
    rcases hhit with ((hs | hs) | hs) | hs
    · exact Or.inl (Or.inl (Or.inl ⟨m, hm, hs, hid⟩))
    · exact Or.inl (Or.inl (Or.inr ⟨m, hm, hs, hid⟩))
    · exact Or.inl (Or.inr ⟨m, hm, hs, hid⟩)
    · exact Or.inr ⟨m, hm, hs, hid⟩

lemma mem_review_ids_iff (now : Int) (msgs : List Msg) (id : String) :
    id ∈ (time_decay now msgs).older_than_12mo.map MsgRef.msg_id ↔
      ∃ m ∈ msgs, review_flagged now m = true ∧ m.msg_id = id := by
  rw [time_decay_eq]
  rw [List.mem_map]
  rw [show (∃ r ∈ msgs.filterMap (review_ref now), r.msg_id = id) ↔ _ from
    mem_ids_of_filterMap now _ (review_ref_form now) msgs id]
  simp only [review_flagged_eq]

lemma mem_dedup_ids_iff (groups : List DedupGroup) (id : String) :
    id ∈ dedup_ids groups ↔ ∃ g ∈ groups, id ∈ g.archive_msg_ids := by
  simp only [dedup_ids, List.mem_toFinset, List.mem_flatten, List.mem_map]
  constructor
  · rintro ⟨l, ⟨g, hg, rfl⟩, hid⟩
    exact ⟨g, hg, hid⟩
  · rintro ⟨g, hg, hid⟩
    exact ⟨g.archive_msg_ids, ⟨g, hg, rfl⟩, hid⟩

lemma mem_already_iff (msgs : List Msg) (id : String) :
    id ∈ ((msgs.filter (fun m => m.category == "archive")).map Msg.msg_id).toFinset ↔
      ∃ m ∈ msgs, m.category = "archive" ∧ m.msg_id = id := by
  simp only [List.mem_toFinset, List.mem_map, List.mem_filter, beq_iff_eq]
  constructor
  · rintro ⟨m, ⟨hm, hc⟩, rfl⟩
    exact ⟨m, hm, hc, rfl⟩
  · rintro ⟨m, hm, hc, rfl⟩
    exact ⟨m, ⟨hm, hc⟩, rfl⟩

/-- Unfolded field access for `phase2_analyse`. -/
lemma phase2_analyse_def (msgs : List Msg) (now : Int) :
    phase2_analyse msgs now =
      ⟨msgs.filter (fun m => m.category == "archive"),
       time_decay now (msgs.filter (fun m => !(m.category == "archive"))),
       dedup_groups_of (groupBySender (msgs.filter (fun m => !(m.category == "archive")))),
       (((msgs.filter (fun m => m.category == "archive")).map Msg.msg_id).toFinset ∪
         td_ids (time_decay now (msgs.filter (fun m => !(m.category == "archive"))))) ∪
         dedup_ids (dedup_groups_of (groupBySender (msgs.filter (fun m => !(m.category == "archive"))))),
       (msgs.map Msg.msg_id).toFinset \
         ((((msgs.filter (fun m => m.category == "archive")).map Msg.msg_id).toFinset ∪
           td_ids (time_decay now (msgs.filter (fun m => !(m.category == "archive"))))) ∪
           dedup_ids (dedup_groups_of (groupBySender (msgs.filter (fun m => !(m.category == "archive"))))))⟩ := rfl

/-! ### Financial exemption lemmas -/

lemma notif_ref_none_of_financial (now : Int) (a : Msg) (h : is_financial a = true) :
    notif_ref now a = none := by
  unfold notif_ref
  split
  · rfl
  · split
    · rfl
    · simp [h]

lemma receipt_ref_none_of_financial (now : Int) (a : Msg) (h : is_financial a = true) :
    receipt_ref now a = none := by
  unfold receipt_ref
  split
  · rfl
  · split
    · rfl
    · simp [h]

lemma security_ref_none_of_financial (now : Int) (a : Msg) (h : is_financial a = true) :
    security_ref now a = none := by
  unfold security_ref
  split
  · rfl
  · split
    · rfl
    · simp [h]

lemma newsletter_ref_none_of_financial (now : Int) (a : Msg) (h : is_financial a = true) :
    newsletter_ref now a = none := by
  unfold newsletter_ref
  split
  · rfl
  · split
    · rfl
    · simp [h]

lemma filterMap_filter_of_none {α β : Type _} (f : α → Option β) (p : α → Bool)
    (h : ∀ a, p a = false → f a = none) :
    ∀ l : List α, (l.filter p).filterMap f = l.filterMap f := by
  intro l
  induction l with
  | nil => rfl
  | cons a t ih =>
    cases hp : p a
    · rw [List.filter_cons]
      simp [hp, List.filterMap_cons, h a hp, ih]
    · simp [List.filter_cons, hp, List.filterMap_cons, ih]

/-! ### Claim theorems: the refinement engine -/

/-- C1: for every input list of classified messages, the final archive-id set
is exactly the union of the already-classified-archive ids, the
time-decay-bucket hit ids (the review bucket excluded), and the burst
archive ids (each burst's newest keeper excluded); the keep-id set is the
complement of the archive-id set over all input ids; and a message older
than 365 days (not kept by category, not financial, date parseable) is
counted in the review bucket, while an id matching none of the three archive
sources is never in the archive-id set. -/
theorem C1_archive_keep_sets (msgs : List Msg) (now : Int) :
    (∀ id : String, id ∈ (phase2_analyse msgs now).archive_msg_ids ↔
        ((∃ m ∈ msgs, m.category = "archive" ∧ m.msg_id = id) ∨
         (∃ m ∈ msgs, m.category ≠ "archive" ∧ decay_hit now m = true ∧ m.msg_id = id) ∨
         (∃ g ∈ (phase2_analyse msgs now).dedup_groups, id ∈ g.archive_msg_ids))) ∧
    (∀ id : String, id ∈ (phase2_analyse msgs now).keep_msg_ids ↔
        (id ∈ msgs.map Msg.msg_id ∧ id ∉ (phase2_analyse msgs now).archive_msg_ids)) ∧
    (∀ m ∈ msgs, m.category ≠ "archive" → review_flagged now m = true →
        m.msg_id ∈ (phase2_analyse msgs now).time_decay_buckets.older_than_12mo.map MsgRef.msg_id) ∧
    (∀ id : String,
        (¬ ∃ m ∈ msgs, m.category = "archive" ∧ m.msg_id = id) →
        (¬ ∃ m ∈ msgs, m.category ≠ "archive" ∧ decay_hit now m = true ∧ m.msg_id = id) →
        (¬ ∃ g ∈ (phase2_analyse msgs now).dedup_groups, id ∈ g.archive_msg_ids) →
        id ∉ (phase2_analyse msgs now).archive_msg_ids) := by
  have harch : ∀ id : String, id ∈ (phase2_analyse msgs now).archive_msg_ids ↔
      ((∃ m ∈ msgs, m.category = "archive" ∧ m.msg_id = id) ∨
       (∃ m ∈ msgs, m.category ≠ "archive" ∧ decay_hit now m = true ∧ m.msg_id = id) ∨
       (∃ g ∈ (phase2_analyse msgs now).dedup_groups, id ∈ g.archive_msg_ids)) := by
    intro id
    rw [phase2_analyse_def]
    simp only [Finset.mem_union]
    rw [mem_already_iff, mem_td_ids_iff, mem_dedup_ids_iff]
    constructor
    · rintro ((h | h) | h)
      · exact Or.inl h
      · obtain ⟨m, hm, hhit, hid⟩ := h
        rw [List.mem_filter] at hm
        refine Or.inr (Or.inl ⟨m, hm.1, ?_, hhit, hid⟩)
        simpa using hm.2
      · exact Or.inr (Or.inr h)
    · rintro (h | ⟨m, hm, hcat, hhit, hid⟩ | h)
      · exact Or.inl (Or.inl h)
      · refine Or.inl (Or.inr ⟨m, ?_, hhit, hid⟩)
        rw [List.mem_filter]
        exact ⟨hm, by simpa using hcat⟩
      · exact Or.inr h
  refine ⟨harch, ?_, ?_, ?_⟩
  · intro id
    rw [phase2_analyse_def]
    simp only [Finset.mem_sdiff, List.mem_toFinset]
  · intro m hm hcat hflag
    rw [phase2_analyse_def]
    dsimp only
    rw [mem_review_ids_iff]
    refine ⟨m, ?_, hflag, rfl⟩
    rw [List.mem_filter]
    exact ⟨hm, by simpa using hcat⟩
  · intro id h1 h2 h3 hmem
    rcases (harch id).mp hmem with h | h | h
    exacts [h1 h, h2 h, h3 h]

/-- C8: a message matching the financial-record heuristic contributes to none
of the four time-decay buckets whatever its age, and removing financial
messages from the input leaves all four auto-archivable buckets unchanged. -/
theorem C8_financial_never_decayed (now : Int) (m : Msg) (hfin : is_financial m = true) :
    notif_ref now m = none ∧ receipt_ref now m = none ∧
    security_ref now m = none ∧ newsletter_ref now m = none ∧
    decay_hit now m = false ∧
    ∀ msgs : List Msg,
      (phase2_analyse msgs now).time_decay_buckets.notifications_over_7d =
        (phase2_analyse (msgs.filter (fun x => !is_financial x)) now).time_decay_buckets.notifications_over_7d ∧
      (phase2_analyse msgs now).time_decay_buckets.receipts_over_90d =
        (phase2_analyse (msgs.filter (fun x => !is_financial x)) now).time_decay_buckets.receipts_over_90d ∧
      (phase2_analyse msgs now).time_decay_buckets.security_over_30d =
        (phase2_analyse (msgs.filter (fun x => !is_financial x)) now).time_decay_buckets.security_over_30d ∧
      (phase2_analyse msgs now).time_decay_buckets.newsletters_over_14d =
        (phase2_analyse (msgs.filter (fun x => !is_financial x)) now).time_decay_buckets.newsletters_over_14d := by
  have hnone : ∀ (f : Int → Msg → Option MsgRef),
      (∀ a, is_financial a = true → f now a = none) →
      ∀ l : List Msg, l.filterMap (f now) = (l.filter (fun x => !is_financial x)).filterMap (f now) := by
    intro f hf l
    refine (filterMap_filter_of_none (f now) (fun x => !is_financial x) ?_ l).symm
    intro a ha
    exact hf a (by simpa using ha)
  refine ⟨notif_ref_none_of_financial now m hfin, receipt_ref_none_of_financial now m hfin,
    security_ref_none_of_financial now m hfin, newsletter_ref_none_of_financial now m hfin,
    ?_, ?_⟩
  · rw [decay_hit_eq_refs, notif_ref_none_of_financial now m hfin,
      receipt_ref_none_of_financial now m hfin, security_ref_none_of_financial now m hfin,
      newsletter_ref_none_of_financial now m hfin]
    rfl
  · intro msgs
    rw [phase2_analyse_def, phase2_analyse_def]
    dsimp only
    rw [time_decay_eq, time_decay_eq]
    rw [List.filter_comm]
    refine ⟨?_, ?_, ?_, ?_⟩ <;>
      exact hnone _ (fun a ha => by
        first
          | exact notif_ref_none_of_financial now a ha
          | exact receipt_ref_none_of_financial now a ha
          | exact security_ref_none_of_financial now a ha
          | exact newsletter_ref_none_of_financial now a ha) _


/-! ### Concrete instances -/

/-- A message already classified as archive. -/
def w_archive_msg : Msg := ⟨"w1", "news@x.com", "News", "Big deals inside", some 0, "archive", "marketing"⟩

/-- An unclassified message 462 days old matching no decay heuristic. -/
def w_old_msg : Msg := ⟨"w2", "friend@y.com", "Friend", "lunch plans someday", some (-40000000), "", ""⟩

/-- The two-message input used to instantiate C1. -/
def w_msgs : List Msg := [w_archive_msg, w_old_msg]

/-- Witness for C1 at a concrete input: the archive-classified id is archived,
the 462-day-old unmatched message is counted for review yet kept. -/
theorem C1_archive_keep_sets_witness :
    "w1" ∈ (phase2_analyse w_msgs 0).archive_msg_ids ∧
    "w2" ∈ (phase2_analyse w_msgs 0).time_decay_buckets.older_than_12mo.map MsgRef.msg_id ∧
    "w2" ∉ (phase2_analyse w_msgs 0).archive_msg_ids ∧
    "w2" ∈ (phase2_analyse w_msgs 0).keep_msg_ids := by
  obtain ⟨h1, h2, h3, h4⟩ := C1_archive_keep_sets w_msgs 0
  have hw2 : "w2" ∉ (phase2_analyse w_msgs 0).archive_msg_ids :=
    h4 "w2" (by decide) (by decide) (by decide)
  refine ⟨?_, ?_, hw2, ?_⟩
  · exact (h1 "w1").mpr (Or.inl ⟨w_archive_msg, by decide, by decide, rfl⟩)
  · exact h3 w_old_msg (by decide) (by decide) (by decide)
  · exact (h2 "w2").mpr ⟨by decide, hw2⟩

/-- A 400-day-old receipt-like financial message. -/
def w_fin_msg : Msg := ⟨"f1", "shop@y.com", "Shop", "Receipt for your tax payment", some 0, "", ""⟩

/-- Witness for C8: the concrete financial message is financial and hits no
auto-archivable decay bucket at an age far beyond every threshold. -/
theorem C8_financial_never_decayed_witness :
    is_financial w_fin_msg = true ∧ decay_hit 40000000 w_fin_msg = false := by
  refine ⟨by decide, ?_⟩
  exact (C8_financial_never_decayed 40000000 w_fin_msg (by decide)).2.2.2.2.1

/-- Five same-sender, same-subject messages within 24 hours; the oldest is
category urgent. -/
def c10_msgs : List Msg :=
  [ ⟨"1", "s@x.com", "S", "daily summary report now", some 0, "urgent", ""⟩,
    ⟨"2", "s@x.com", "S", "daily summary report now", some 600, "reference", ""⟩,
    ⟨"3", "s@x.com", "S", "daily summary report now", some 1200, "reference", ""⟩,
    ⟨"4", "s@x.com", "S", "daily summary report now", some 1800, "reference", ""⟩,
    ⟨"5", "s@x.com", "S", "daily summary report now", some 2400, "reference", ""⟩ ]

/-- C10: burst deduplication never consults the category: on `c10_msgs` the
oldest message is category urgent (a never-expire category), is a non-newest
member of the detected burst, and ends up in the final archive-id set. -/
theorem C10_dedup_ignores_keep_category :
    ("urgent" ∈ KEEP_CATEGORIES) ∧
    (∃ m ∈ c10_msgs, m.category = "urgent" ∧
      (∃ g ∈ (phase2_analyse c10_msgs 300000).dedup_groups,
        m.msg_id ∈ g.archive_msg_ids ∧ g.keep_msg_id ≠ m.msg_id) ∧
      m.msg_id ∈ (phase2_analyse c10_msgs 300000).archive_msg_ids) := by
  decide


/-! ### Properties of the stable date sort -/

lemma mem_insertByDate (x : Msg × Int) (l : List (Msg × Int)) (y : Msg × Int) :
    y ∈ insertByDate x l ↔ y = x ∨ y ∈ l := by
  induction l with
  | nil => simp [insertByDate]
  | cons z t ih =>
    by_cases h : dateLE z x = true <;> simp [insertByDate, h, ih] <;> tauto

lemma length_insertByDate (x : Msg × Int) (l : List (Msg × Int)) :
    (insertByDate x l).length = l.length + 1 := by
  induction l with
  | nil => rfl
  | cons z t ih =>
    by_cases h : dateLE z x = true <;> simp [insertByDate, h, ih]

lemma insertByDate_pairwise (x : Msg × Int) (l : List (Msg × Int))
    (h : l.Pairwise (fun a b => a.2 ≤ b.2)) :
    (insertByDate x l).Pairwise (fun a b => a.2 ≤ b.2) := by
  induction l with
  | nil => simp [insertByDate]
  | cons z t ih =>
    rw [List.pairwise_cons] at h
    by_cases hz : dateLE z x = true
    · rw [insertByDate, if_pos hz, List.pairwise_cons]
      refine ⟨?_, ih h.2⟩
      intro y hy
      rcases (mem_insertByDate x t y).mp hy with rfl | hy
      · exact of_decide_eq_true hz
      · exact h.1 y hy
    · rw [insertByDate, if_neg hz, List.pairwise_cons]
      have hxz : x.2 ≤ z.2 := le_of_lt (by simpa [dateLE] using hz)
      refine ⟨?_, List.pairwise_cons.mpr h⟩
      intro y hy
      rcases List.mem_cons.mp hy with rfl | hy
      · exact hxz
      · exact le_trans hxz (h.1 y hy)

lemma insertByDate_of_all_le (x : Msg × Int) (l : List (Msg × Int))
    (h : ∀ y ∈ l, y.2 ≤ x.2) : insertByDate x l = l ++ [x] := by
  induction l with
  | nil => rfl
  | cons z t ih =>
    have hz : dateLE z x = true := decide_eq_true (h z (List.mem_cons_self z t))
    rw [insertByDate, if_pos hz, ih (fun y hy => h y (List.mem_cons_of_mem z hy))]
    rfl

lemma sortByDate_go_pairwise : ∀ (l acc : List (Msg × Int)),
    acc.Pairwise (fun a b => a.2 ≤ b.2) →
    (l.foldl (fun acc x => insertByDate x acc) acc).Pairwise (fun a b => a.2 ≤ b.2) := by
  intro l
  induction l with
  | nil => intro acc h; exact h
  | cons x t ih => intro acc h; exact ih _ (insertByDate_pairwise x acc h)

lemma sortByDate_pairwise (l : List (Msg × Int)) :
    (sortByDate l).Pairwise (fun a b => a.2 ≤ b.2) :=
  sortByDate_go_pairwise l [] (by simp)

lemma sortByDate_go_mem : ∀ (l acc : List (Msg × Int)) (y : Msg × Int),
    y ∈ l.foldl (fun acc x => insertByDate x acc) acc ↔ y ∈ acc ∨ y ∈ l := by
  intro l
  induction l with
  | nil => intro acc y; simp
  | cons x t ih =>
    intro acc y
    rw [List.foldl_cons, ih, mem_insertByDate]
    simp
    tauto

lemma mem_sortByDate (l : List (Msg × Int)) (y : Msg × Int) :
    y ∈ sortByDate l ↔ y ∈ l := by
  rw [sortByDate, sortByDate_go_mem]
  simp

lemma sortByDate_go_length : ∀ (l acc : List (Msg × Int)),
    (l.foldl (fun acc x => insertByDate x acc) acc).length = acc.length + l.length := by
  intro l
  induction l with
  | nil => intro acc; simp
  | cons x t ih =>
    intro acc
    rw [List.foldl_cons, ih, length_insertByDate]
    simp only [List.length_cons]
    omega

lemma length_sortByDate (l : List (Msg × Int)) : (sortByDate l).length = l.length := by
  rw [sortByDate, sortByDate_go_length]
  simp

lemma sortByDate_go_sorted : ∀ (l acc : List (Msg × Int)),
    (acc ++ l).Pairwise (fun a b => a.2 ≤ b.2) →
    l.foldl (fun acc x => insertByDate x acc) acc = acc ++ l := by
  intro l
  induction l with
  | nil => intro acc _; simp
  | cons x t ih =>
    intro acc h
    rw [List.foldl_cons]
    have hacc : ∀ y ∈ acc, y.2 ≤ x.2 := by
      intro y hy
      have := (List.pairwise_append.mp h).2.2 y hy x (List.mem_cons_self x t)
      exact this
    rw [insertByDate_of_all_le x acc hacc]
    have : ((acc ++ [x]) ++ t).Pairwise (fun a b : Msg × Int => a.2 ≤ b.2) := by
      simpa using h
    rw [ih (acc ++ [x]) this]
    simp

lemma sortByDate_eq_of_sorted (l : List (Msg × Int))
    (h : l.Pairwise (fun a b => a.2 ≤ b.2)) : sortByDate l = l := by
  rw [sortByDate, sortByDate_go_sorted l [] (by simpa using h)]
  rfl

lemma pairwise_le_getLast : ∀ (l : List (Msg × Int)) (hne : l ≠ [])
    (_ : l.Pairwise (fun a b => a.2 ≤ b.2)) (y : Msg × Int), y ∈ l → y.2 ≤ (l.getLast hne).2 := by
  intro l
  induction l with
  | nil => intro hne; exact absurd rfl hne
  | cons x t ih =>
    intro hne hp y hy
    cases t with
    | nil =>
      rcases List.mem_singleton.mp hy with rfl
      rfl
    | cons a s =>
      rw [List.getLast_cons (by simp : (a :: s) ≠ [])]
      rw [List.pairwise_cons] at hp
      rcases List.mem_cons.mp hy with rfl | hy
      · exact le_trans (hp.1 _ (List.getLast_mem (by simp))) (le_refl _)
      · exact ih (by simp) hp.2 y hy


/-! ### Properties of the dedup scan -/

lemma dedupScan_pref (sender : String) :
    ∀ (l : List (Msg × Int)) (acc : List DedupGroup), acc <+: dedupScan sender l acc := by
  intro l
  induction l with
  | nil => intro acc; exact List.prefix_refl acc
  | cons x rest ih =>
    intro acc
    rw [dedupScan]
    refine List.IsPrefix.trans ?_ (ih _)
    dsimp only
    split
    · split
      · exact List.prefix_refl acc
      · exact ⟨_, rfl⟩
    · exact List.prefix_refl acc

lemma dedupScan_mem_char (sender : String) :
    ∀ (l : List (Msg × Int)) (acc : List DedupGroup) (g : DedupGroup),
      g ∈ dedupScan sender l acc →
      g ∈ acc ∨ ∃ x rest, (x :: rest) <:+ l ∧ 5 ≤ (burstFrom x rest).length ∧
        g = mkGroup sender (burstFrom x rest) := by
  intro l
  induction l with
  | nil => intro acc g hg; exact Or.inl hg
  | cons x rest ih =>
    intro acc g hg
    rw [dedupScan] at hg
    rcases ih _ g hg with hacc | ⟨x', rest', hsfx, hlen, hgeq⟩
    · dsimp only at hacc
      split at hacc
      · split at hacc
        · exact Or.inl hacc
        · rcases List.mem_append.mp hacc with h | h
          · exact Or.inl h
          · rcases List.mem_singleton.mp h with rfl
            exact Or.inr ⟨x, rest, List.suffix_refl _, by assumption, rfl⟩
      · exact Or.inl hacc
    · exact Or.inr ⟨x', rest', hsfx.trans (List.suffix_cons x rest), hlen, hgeq⟩

lemma burstFrom_sublist (x : Msg × Int) (rest : List (Msg × Int)) :
    List.Sublist (burstFrom x rest) (x :: rest) := by
  rw [burstFrom]
  refine List.cons_sublist_cons.mpr ?_
  exact (List.filter_sublist _).trans (rest.takeWhile_sublist _)

lemma burstFrom_head_mem (x : Msg × Int) (rest : List (Msg × Int)) (y : Msg × Int)
    (hy : y ∈ burstFrom x rest) :
    y = x ∨ ((y.2 - x.2 ≤ 86400) ∧ similar x.1 y.1 = true) := by
  rw [burstFrom] at hy
  rcases List.mem_cons.mp hy with rfl | hy
  · exact Or.inl rfl
  · rw [List.mem_filter] at hy
    refine Or.inr ⟨?_, hy.2⟩
    have := List.mem_takeWhile_imp hy.1
    simpa using this

lemma similar_self_of_eq {a b : Msg}
    (h : normalise_subject a.subject = normalise_subject b.subject) :
    similar a b = true := by
  simp [similar, h]

lemma burstFrom_full (x : Msg × Int) (rest : List (Msg × Int))
    (hw : ∀ y ∈ rest, y.2 - x.2 ≤ 86400)
    (hsim : ∀ y ∈ rest, similar x.1 y.1 = true) :
    burstFrom x rest = x :: rest := by
  rw [burstFrom]
  have ht : rest.takeWhile (fun y => decide (y.2 - x.2 ≤ 86400)) = rest := by
    induction rest with
    | nil => rfl
    | cons z t ih =>
      rw [List.takeWhile_cons, if_pos (decide_eq_true (hw z (List.mem_cons_self z t)))]
      rw [ih (fun y hy => hw y (List.mem_cons_of_mem z hy))
          (fun y hy => hsim y (List.mem_cons_of_mem z hy))]
  rw [ht, List.filter_eq_self.mpr hsim]

lemma dedupScan_keys_nodup (sender : String) :
    ∀ (l : List (Msg × Int)) (acc : List DedupGroup),
      (acc.map DedupGroup.group_key).Nodup →
      ((dedupScan sender l acc).map DedupGroup.group_key).Nodup := by
  intro l
  induction l with
  | nil => intro acc h; exact h
  | cons x rest ih =>
    intro acc h
    rw [dedupScan]
    refine ih _ ?_
    dsimp only
    split
    · split
      · exact h
      · rename_i hany
        rw [List.map_append, List.map_singleton]
        rw [List.nodup_append]
        refine ⟨h, List.nodup_singleton _, ?_⟩
        intro k hk
        rw [List.mem_singleton]
        intro hkey
        rw [List.mem_map] at hk
        obtain ⟨g0, hg0, hg0k⟩ := hk
        have : acc.any (fun h => h.group_key == (mkGroup sender (burstFrom x rest)).group_key) = true := by
          rw [List.any_eq_true]
          exact ⟨g0, hg0, by rw [beq_iff_eq, hg0k, hkey]⟩
        simp [this] at hany
    · exact h


lemma mkGroup_of_sorted (sender : String) (s : List (Msg × Int)) (hne : s ≠ [])
    (hs : s.Pairwise (fun a b => a.2 ≤ b.2)) :
    mkGroup sender s =
      { group_key := sender ++ "|" ++ first_n_words (s.head hne).1.subject
        sender := sender
        pattern := first_n_words (s.head hne).1.subject
        total_in_burst := s.length
        keep_msg_id := (s.getLast hne).1.msg_id
        archive_msg_ids := s.dropLast.map (fun a => a.1.msg_id) } := by
  rw [mkGroup]
  rw [sortByDate_eq_of_sorted s hs]
  rw [List.head?_eq_head hne, List.getLast?_eq_getLast s hne]
  rfl

lemma dedup_groups_of_mem (sgs : List (String × List Msg)) :
    ∀ g ∈ dedup_groups_of sgs,
      ∃ (sender : String) (l : List (Msg × Int)),
        l.Pairwise (fun a b => a.2 ≤ b.2) ∧
        ∃ x rest, (x :: rest) <:+ l ∧ 5 ≤ (burstFrom x rest).length ∧
          g = mkGroup sender (burstFrom x rest) := by
  rw [dedup_groups_of]
  suffices h : ∀ (t : List (String × List Msg)) (acc : List DedupGroup),
      (∀ g ∈ acc, ∃ (sender : String) (l : List (Msg × Int)),
        l.Pairwise (fun a b => a.2 ≤ b.2) ∧
        ∃ x rest, (x :: rest) <:+ l ∧ 5 ≤ (burstFrom x rest).length ∧
          g = mkGroup sender (burstFrom x rest)) →
      ∀ g ∈ t.foldl (fun acc sg =>
          if sg.2.length < 5 then acc
          else dedupScan sg.1 (sortByDate (datedOf sg.2)) acc) acc,
        ∃ (sender : String) (l : List (Msg × Int)),
          l.Pairwise (fun a b => a.2 ≤ b.2) ∧
          ∃ x rest, (x :: rest) <:+ l ∧ 5 ≤ (burstFrom x rest).length ∧
            g = mkGroup sender (burstFrom x rest) by
    exact h sgs [] (by simp)
  intro t
  induction t with
  | nil => intro acc hacc g hg; exact hacc g hg
  | cons sg rest ih =>
    intro acc hacc g hg
    rw [List.foldl_cons] at hg
    refine ih _ ?_ g hg
    intro g0 hg0
    split at hg0
    · exact hacc g0 hg0
    · rcases dedupScan_mem_char sg.1 _ _ g0 hg0 with h | ⟨x, r, hsfx, hlen, hgeq⟩
      · exact hacc g0 h
      · exact ⟨sg.1, sortByDate (datedOf sg.2), sortByDate_pairwise _, x, r, hsfx, hlen, hgeq⟩

lemma dedup_groups_of_keys_nodup (sgs : List (String × List Msg)) :
    ((dedup_groups_of sgs).map DedupGroup.group_key).Nodup := by
  rw [dedup_groups_of]
  suffices h : ∀ (t : List (String × List Msg)) (acc : List DedupGroup),
      (acc.map DedupGroup.group_key).Nodup →
      ((t.foldl (fun acc sg =>
          if sg.2.length < 5 then acc
          else dedupScan sg.1 (sortByDate (datedOf sg.2)) acc) acc).map
        DedupGroup.group_key).Nodup by
    exact h sgs [] (by simp)
  intro t
  induction t with
  | nil => intro acc hacc; exact hacc
  | cons sg rest ih =>
    intro acc hacc
    rw [List.foldl_cons]
    refine ih _ ?_
    split
    · exact hacc
    · exact dedupScan_keys_nodup sg.1 _ acc hacc

lemma dedupScan_full_ids (sender : String) (l : List (Msg × Int))
    (hp : l.Pairwise (fun a b => a.2 < b.2))
    (hw : ∀ x ∈ l, ∀ y ∈ l, y.2 - x.2 ≤ 86400)
    (hsim : ∀ x ∈ l, ∀ y ∈ l, similar x.1 y.1 = true)
    (hlen : 5 ≤ l.length) :
    ∀ id : String, (∃ g ∈ dedupScan sender l [], id ∈ g.archive_msg_ids) ↔
      id ∈ l.dropLast.map (fun a => a.1.msg_id) := by
  have hple : l.Pairwise (fun a b : Msg × Int => a.2 ≤ b.2) :=
    hp.imp (fun h => le_of_lt h)
  intro id
  constructor
  · rintro ⟨g, hg, hid⟩
    rcases dedupScan_mem_char sender l [] g hg with h | ⟨x, rest, hsfx, hblen, rfl⟩
    · simp at h
    · have hxr_sub : List.Sublist (x :: rest) l := hsfx.sublist
      have hxmem : x ∈ l := hxr_sub.subset (List.mem_cons_self x rest)
      have hfull : burstFrom x rest = x :: rest :=
        burstFrom_full x rest
          (fun y hy => hw x hxmem y (hxr_sub.subset (List.mem_cons_of_mem x hy)))
          (fun y hy => hsim x hxmem y (hxr_sub.subset (List.mem_cons_of_mem x hy)))
      rw [hfull] at hid
      have hsorted : (x :: rest).Pairwise (fun a b : Msg × Int => a.2 ≤ b.2) :=
        hple.sublist hxr_sub
      rw [mkGroup_of_sorted sender (x :: rest) (by simp) hsorted] at hid
      dsimp only at hid
      rw [List.mem_map] at hid
      obtain ⟨y, hy, hyid⟩ := hid
      obtain ⟨pre, hpre⟩ := hsfx
      rw [List.mem_map]
      refine ⟨y, ?_, hyid⟩
      rw [← hpre, List.dropLast_append_cons]
      exact List.mem_append.mpr (Or.inr hy)
  · intro hid
    cases l with
    | nil => simp at hlen
    | cons x rest =>
      have hwx : ∀ y ∈ rest, y.2 - x.2 ≤ 86400 := fun y hy =>
        hw x (List.mem_cons_self x rest) y (List.mem_cons_of_mem x hy)
      have hsx : ∀ y ∈ rest, similar x.1 y.1 = true := fun y hy =>
        hsim x (List.mem_cons_self x rest) y (List.mem_cons_of_mem x hy)
      have hfull : burstFrom x rest = x :: rest := burstFrom_full x rest hwx hsx
      have hstep : dedupScan sender (x :: rest) [] =
          dedupScan sender rest [mkGroup sender (burstFrom x rest)] := by
        rw [dedupScan]
        dsimp only
        rw [if_pos (by rw [hfull]; exact hlen)]
        rw [if_neg (by simp)]
        rfl
      rw [hstep]
      refine ⟨mkGroup sender (burstFrom x rest),
        (dedupScan_pref sender rest _).subset (List.mem_singleton_self _), ?_⟩
      rw [hfull, mkGroup_of_sorted sender (x :: rest) (by simp) hple]
      exact hid


lemma groupBySender_const_aux (sender : String) :
    ∀ (rest cur : List Msg), (∀ m ∈ rest, m.from_email = sender) →
      rest.foldl (fun acc m =>
        if acc.any (fun p => p.1 == m.from_email) then
          acc.map (fun p => if p.1 == m.from_email then (p.1, p.2 ++ [m]) else p)
        else acc ++ [(m.from_email, [m])]) [(sender, cur)] = [(sender, cur ++ rest)] := by
  intro rest
  induction rest with
  | nil => intro cur _; simp
  | cons m t ih =>
    intro cur h
    have hm : m.from_email = sender := h m (List.mem_cons_self m t)
    rw [List.foldl_cons]
    have hany : ([(sender, cur)].any (fun p => p.1 == m.from_email)) = true := by
      simp [hm]
    rw [if_pos hany]
    have hmap : ([(sender, cur)].map (fun p => if p.1 == m.from_email then (p.1, p.2 ++ [m]) else p)) =
        [(sender, cur ++ [m])] := by
      simp [hm]
    rw [hmap, ih (cur ++ [m]) (fun y hy => h y (List.mem_cons_of_mem m hy))]
    simp

lemma groupBySender_const (sender : String) (msgs : List Msg)
    (h : ∀ m ∈ msgs, m.from_email = sender) (hne : msgs ≠ []) :
    groupBySender msgs = [(sender, msgs)] := by
  cases msgs with
  | nil => exact absurd rfl hne
  | cons m t =>
    rw [groupBySender, List.foldl_cons]
    have hm : m.from_email = sender := h m (List.mem_cons_self m t)
    have hstep : (if ([] : List (String × List Msg)).any (fun p => p.1 == m.from_email) then
        ([] : List (String × List Msg)).map (fun p => if p.1 == m.from_email then (p.1, p.2 ++ [m]) else p)
      else [] ++ [(m.from_email, [m])]) = [(sender, [m])] := by
      simp [hm]
    rw [hstep, groupBySender_const_aux sender t [m] (fun y hy => h y (List.mem_cons_of_mem m hy))]
    simp


/-! ### Claim C4: burst deduplication -/

/-- Ten messages from one sender with one subject: a 5-message burst on day
one and a second 5-message burst more than 24 hours later. -/
def c4_msgs : List Msg :=
  [ ⟨"a1", "s@x.com", "S", "daily summary report now", some 0, "", ""⟩,
    ⟨"a2", "s@x.com", "S", "daily summary report now", some 600, "", ""⟩,
    ⟨"a3", "s@x.com", "S", "daily summary report now", some 1200, "", ""⟩,
    ⟨"a4", "s@x.com", "S", "daily summary report now", some 1800, "", ""⟩,
    ⟨"a5", "s@x.com", "S", "daily summary report now", some 2400, "", ""⟩,
    ⟨"b1", "s@x.com", "S", "daily summary report now", some 200000, "", ""⟩,
    ⟨"b2", "s@x.com", "S", "daily summary report now", some 200600, "", ""⟩,
    ⟨"b3", "s@x.com", "S", "daily summary report now", some 201200, "", ""⟩,
    ⟨"b4", "s@x.com", "S", "daily summary report now", some 201800, "", ""⟩,
    ⟨"b5", "s@x.com", "S", "daily summary report now", some 202400, "", ""⟩ ]

/-- The second run: the last five messages of `c4_msgs`. -/
def c4_runB : List Msg := c4_msgs.drop 5

/-- C4 counterexample: the last five messages of `c4_msgs` are a run of 5
messages from one sender, all within 24 hours of the run's start, with
identical subjects — by the claim its non-newest members must be marked for
archive — yet message b3 (not the newest of the run) is in no dedup group's
archive list and not in the final archive-id set: the run's
(sender, 4-word-prefix) key was already used by the earlier burst, so the
whole second burst is dropped. -/
theorem C4_counterexample :
    (∀ m ∈ c4_runB, m.from_email = "s@x.com") ∧
    c4_runB.length = 5 ∧
    (∀ m ∈ c4_runB, normalise_subject m.subject = normalise_subject "daily summary report now") ∧
    (∀ m ∈ c4_runB, ∃ d, m.date = some d ∧ 200000 ≤ d ∧ d - 200000 ≤ 86400) ∧
    (∀ m ∈ c4_runB, m ∈ c4_msgs) ∧
    (∃ m ∈ c4_runB, m.msg_id = "b3" ∧ m.date = some 201200) ∧
    (∃ m ∈ c4_runB, m.msg_id ≠ "b3" ∧ m.date = some 202400) ∧
    (¬ ∃ g ∈ (phase2_analyse c4_msgs 300000).dedup_groups, "b3" ∈ g.archive_msg_ids) ∧
    "b3" ∉ (phase2_analyse c4_msgs 300000).archive_msg_ids := by
  decide

/-- C4 (amended): (1) six messages from one sender, in chronological order
within a 2-hour span, with identical normalised subjects and the newest id
distinct from the older ids, yield a dedup archive-id set consisting of
exactly the five oldest messages — the newest is kept; (2) every reported
burst group arises from a date-sorted burst of at least 5 messages, all
within 24 hours of the window start and similar to it, whose newest member
is the kept id while exactly the others are its archive ids; (3) group keys
are never repeated — a later qualifying run whose (sender, raw-subject
4-word) key was already reported is dropped entirely. -/
theorem C4_burst_dedup_amended :
    (∀ (sender : String) (m0 m1 m2 m3 m4 m5 : Msg) (d0 d1 d2 d3 d4 d5 now : Int),
      m0.from_email = sender → m1.from_email = sender → m2.from_email = sender →
      m3.from_email = sender → m4.from_email = sender → m5.from_email = sender →
      m0.date = some d0 → m1.date = some d1 → m2.date = some d2 →
      m3.date = some d3 → m4.date = some d4 → m5.date = some d5 →
      d0 < d1 → d1 < d2 → d2 < d3 → d3 < d4 → d4 < d5 → d5 - d0 ≤ 7200 →
      normalise_subject m1.subject = normalise_subject m0.subject →
      normalise_subject m2.subject = normalise_subject m0.subject →
      normalise_subject m3.subject = normalise_subject m0.subject →
      normalise_subject m4.subject = normalise_subject m0.subject →
      normalise_subject m5.subject = normalise_subject m0.subject →
      m0.category ≠ "archive" → m1.category ≠ "archive" → m2.category ≠ "archive" →
      m3.category ≠ "archive" → m4.category ≠ "archive" → m5.category ≠ "archive" →
      m5.msg_id ∉ [m0.msg_id, m1.msg_id, m2.msg_id, m3.msg_id, m4.msg_id] →
      ((∀ id : String,
          id ∈ dedup_ids (phase2_analyse [m0, m1, m2, m3, m4, m5] now).dedup_groups ↔
          id ∈ [m0.msg_id, m1.msg_id, m2.msg_id, m3.msg_id, m4.msg_id]) ∧
        m5.msg_id ∉ dedup_ids (phase2_analyse [m0, m1, m2, m3, m4, m5] now).dedup_groups)) ∧
    (∀ senderGroups : List (String × List Msg), ∀ g ∈ dedup_groups_of senderGroups,
      5 ≤ g.total_in_burst ∧
      ∃ (s : List (Msg × Int)) (hne : s ≠ []),
        s.Pairwise (fun a b => a.2 ≤ b.2) ∧
        s.length = g.total_in_burst ∧
        g.keep_msg_id = (s.getLast hne).1.msg_id ∧
        g.archive_msg_ids = s.dropLast.map (fun a => a.1.msg_id) ∧
        (∀ y ∈ s, y.2 ≤ (s.getLast hne).2) ∧
        (∀ y ∈ s, y.2 - (s.head hne).2 ≤ 86400) ∧
        (∀ y ∈ s, similar (s.head hne).1 y.1 = true)) ∧
    (∀ senderGroups : List (String × List Msg),
      ((dedup_groups_of senderGroups).map DedupGroup.group_key).Nodup) := by
  refine ⟨?_, ?_, ?_⟩
  · intro sender m0 m1 m2 m3 m4 m5 d0 d1 d2 d3 d4 d5 now
    intro hs0 hs1 hs2 hs3 hs4 hs5 hd0 hd1 hd2 hd3 hd4 hd5
    intro h01 h12 h23 h34 h45 hspan
    intro hn1 hn2 hn3 hn4 hn5
    intro hc0 hc1 hc2 hc3 hc4 hc5 hid5
    have hrem : ([m0, m1, m2, m3, m4, m5].filter (fun m => !(m.category == "archive"))) =
        [m0, m1, m2, m3, m4, m5] := by
      rw [List.filter_eq_self]
      intro a ha
      simp only [List.mem_cons, List.not_mem_nil, or_false] at ha
      rcases ha with rfl | rfl | rfl | rfl | rfl | rfl <;>
        simp [hc0, hc1, hc2, hc3, hc4, hc5]
    have hgroup : groupBySender [m0, m1, m2, m3, m4, m5] = [(sender, [m0, m1, m2, m3, m4, m5])] := by
      refine groupBySender_const sender _ ?_ (by simp)
      intro a ha
      simp only [List.mem_cons, List.not_mem_nil, or_false] at ha
      rcases ha with rfl | rfl | rfl | rfl | rfl | rfl
      exacts [hs0, hs1, hs2, hs3, hs4, hs5]
    have hdated : datedOf [m0, m1, m2, m3, m4, m5] =
        [(m0, d0), (m1, d1), (m2, d2), (m3, d3), (m4, d4), (m5, d5)] := by
      simp [datedOf, List.filterMap_cons, hd0, hd1, hd2, hd3, hd4, hd5]
    have hplt : ([(m0, d0), (m1, d1), (m2, d2), (m3, d3), (m4, d4), (m5, d5)] :
        List (Msg × Int)).Pairwise (fun a b => a.2 < b.2) := by
      refine List.Pairwise.cons ?_ (List.Pairwise.cons ?_ (List.Pairwise.cons ?_
        (List.Pairwise.cons ?_ (List.Pairwise.cons ?_ (List.Pairwise.cons ?_
          List.Pairwise.nil))))) <;>
        (intro a ha; fin_cases ha <;> (dsimp only; omega))
    have hsorted : sortByDate [(m0, d0), (m1, d1), (m2, d2), (m3, d3), (m4, d4), (m5, d5)] =
        [(m0, d0), (m1, d1), (m2, d2), (m3, d3), (m4, d4), (m5, d5)] :=
      sortByDate_eq_of_sorted _ (hplt.imp (fun h => le_of_lt h))
    have hgroups : (phase2_analyse [m0, m1, m2, m3, m4, m5] now).dedup_groups =
        dedupScan sender [(m0, d0), (m1, d1), (m2, d2), (m3, d3), (m4, d4), (m5, d5)] [] := by
      rw [phase2_analyse_def]
      dsimp only
      rw [hrem, hgroup, dedup_groups_of, List.foldl_cons, List.foldl_nil]
      dsimp only
      rw [if_neg (by simp)]
      rw [hdated, hsorted]
    have hw : ∀ x ∈ ([(m0, d0), (m1, d1), (m2, d2), (m3, d3), (m4, d4), (m5, d5)] :
        List (Msg × Int)), ∀ y ∈ ([(m0, d0), (m1, d1), (m2, d2), (m3, d3), (m4, d4), (m5, d5)] :
        List (Msg × Int)), y.2 - x.2 ≤ 86400 := by
      intro x hx y hy
      simp only [List.mem_cons, List.not_mem_nil, or_false] at hx hy
      rcases hx with rfl | rfl | rfl | rfl | rfl | rfl <;>
        rcases hy with rfl | rfl | rfl | rfl | rfl | rfl <;>
        · dsimp only; omega
    have hsim : ∀ x ∈ ([(m0, d0), (m1, d1), (m2, d2), (m3, d3), (m4, d4), (m5, d5)] :
        List (Msg × Int)), ∀ y ∈ ([(m0, d0), (m1, d1), (m2, d2), (m3, d3), (m4, d4), (m5, d5)] :
        List (Msg × Int)), similar x.1 y.1 = true := by
      intro x hx y hy
      simp only [List.mem_cons, List.not_mem_nil, or_false] at hx hy
      rcases hx with rfl | rfl | rfl | rfl | rfl | rfl <;>
        rcases hy with rfl | rfl | rfl | rfl | rfl | rfl <;>
        · apply similar_self_of_eq
          simp [hn1, hn2, hn3, hn4, hn5]
    have h1 : ∀ id : String,
        id ∈ dedup_ids (phase2_analyse [m0, m1, m2, m3, m4, m5] now).dedup_groups ↔
        id ∈ [m0.msg_id, m1.msg_id, m2.msg_id, m3.msg_id, m4.msg_id] := by
      intro id
      rw [hgroups, mem_dedup_ids_iff]
      rw [dedupScan_full_ids sender _ hplt hw hsim (by simp)]
      simp [List.dropLast]
    exact ⟨h1, fun hmem => hid5 ((h1 _).mp hmem)⟩
  · intro sgs g hg
    obtain ⟨sender, l, hple, x, rest, hsfx, hblen, rfl⟩ := dedup_groups_of_mem sgs g hg
    have hxr_sub : List.Sublist (x :: rest) l := hsfx.sublist
    have hbsub : List.Sublist (burstFrom x rest) l := (burstFrom_sublist x rest).trans hxr_sub
    have hbp : (burstFrom x rest).Pairwise (fun a b : Msg × Int => a.2 ≤ b.2) :=
      hple.sublist hbsub
    have hne : burstFrom x rest ≠ [] := by rw [burstFrom]; simp
    have hhead : (burstFrom x rest).head hne = x := by
      simp [burstFrom]
    rw [mkGroup_of_sorted sender _ hne hbp]
    dsimp only
    refine ⟨hblen, burstFrom x rest, hne, hbp, rfl, rfl, rfl,
      pairwise_le_getLast _ hne hbp, ?_, ?_⟩
    · intro y hy
      rw [hhead]
      rcases burstFrom_head_mem x rest y hy with rfl | ⟨h1, _⟩
      · omega
      · exact h1
    · intro y hy
      rw [hhead]
      rcases burstFrom_head_mem x rest y hy with rfl | ⟨_, h2⟩
      · exact similar_self_of_eq rfl
      · exact h2
  · exact dedup_groups_of_keys_nodup


/-- Six concrete messages instantiating the amended C4 scenario. -/
def c4w0 : Msg := ⟨"1", "s@x.com", "S", "daily summary report now", some 0, "", ""⟩

/-- Second message of the C4 witness scenario. -/
def c4w1 : Msg := ⟨"2", "s@x.com", "S", "daily summary report now", some 600, "", ""⟩

/-- Third message of the C4 witness scenario. -/
def c4w2 : Msg := ⟨"3", "s@x.com", "S", "daily summary report now", some 1200, "", ""⟩

/-- Fourth message of the C4 witness scenario. -/
def c4w3 : Msg := ⟨"4", "s@x.com", "S", "daily summary report now", some 1800, "", ""⟩

/-- Fifth message of the C4 witness scenario. -/
def c4w4 : Msg := ⟨"5", "s@x.com", "S", "daily summary report now", some 2400, "", ""⟩

/-- Sixth (newest) message of the C4 witness scenario. -/
def c4w5 : Msg := ⟨"6", "s@x.com", "S", "daily summary report now", some 3000, "", ""⟩

/-- Witness for the amended C4: on six concrete identical-subject messages
within an hour, the dedup stage marks an older message and keeps the newest. -/
theorem C4_burst_dedup_amended_witness :
    ("3" ∈ dedup_ids (phase2_analyse [c4w0, c4w1, c4w2, c4w3, c4w4, c4w5] 99999).dedup_groups) ∧
    ("6" ∉ dedup_ids (phase2_analyse [c4w0, c4w1, c4w2, c4w3, c4w4, c4w5] 99999).dedup_groups) := by
  obtain ⟨h1, h2⟩ :=
    C4_burst_dedup_amended.1 "s@x.com" c4w0 c4w1 c4w2 c4w3 c4w4 c4w5 0 600 1200 1800 2400 3000 99999
      rfl rfl rfl rfl rfl rfl rfl rfl rfl rfl rfl rfl
      (by decide) (by decide) (by decide) (by decide) (by decide) (by decide)
      rfl rfl rfl rfl rfl
      (by decide) (by decide) (by decide) (by decide) (by decide) (by decide)
      (by decide)
  exact ⟨(h1 "3").mpr (by decide), h2⟩


/-! ### Batching -/

/-- Fuel-driven chunking helper (fuel at least the list length suffices). -/
def chunksOfAux : Nat → Nat → List α → List (List α)
  | 0, _, _ => []
  | _ + 1, _, [] => []
  | fuel + 1, n, x :: xs => ((x :: xs).take n) :: chunksOfAux fuel n (xs.drop (n - 1))

/-- The batches `l[i:i+n]` of Python's `range(0, len(l), n)` loops. -/
def chunksOf (n : Nat) (l : List α) : List (List α) := chunksOfAux l.length n l

lemma chunksOfAux_fuel {α : Type _} : ∀ (fuel fuel' n : Nat) (l : List α),
    l.length ≤ fuel → l.length ≤ fuel' → chunksOfAux fuel n l = chunksOfAux fuel' n l := by
  intro fuel
  induction fuel with
  | zero =>
    intro fuel' n l hl _
    have : l = [] := List.eq_nil_of_length_eq_zero (Nat.le_zero.mp hl)
    subst this
    cases fuel' <;> rfl
  | succ f ih =>
    intro fuel' n l hl hl'
    cases l with
    | nil => cases fuel' <;> rfl
    | cons x xs =>
      cases fuel' with
      | zero => simp at hl'
      | succ f' =>
        rw [chunksOfAux, chunksOfAux]
        congr 1
        refine ih f' n _ ?_ ?_
        · calc (xs.drop (n - 1)).length ≤ xs.length := by
                rw [List.length_drop]; omega
            _ ≤ f := by simpa using hl
        · calc (xs.drop (n - 1)).length ≤ xs.length := by
                rw [List.length_drop]; omega
            _ ≤ f' := by simpa using hl'

lemma chunksOf_nil {α : Type _} (n : Nat) : chunksOf n ([] : List α) = [] := rfl

lemma chunksOf_cons {α : Type _} (n : Nat) (hn : 1 ≤ n) (x : α) (xs : List α) :
    chunksOf n (x :: xs) = ((x :: xs).take n) :: chunksOf n ((x :: xs).drop n) := by
  rw [chunksOf, List.length_cons, chunksOfAux]
  congr 1
  · obtain ⟨m, rfl⟩ := Nat.exists_eq_add_of_le hn
    have hdrop : xs.drop (1 + m - 1) = (x :: xs).drop (1 + m) := by
      have h1 : 1 + m - 1 = m := by omega
      have h2 : 1 + m = m + 1 := by omega
      rw [h1, h2, List.drop_succ_cons]
    rw [hdrop, chunksOf]
    refine chunksOfAux_fuel _ _ _ _ ?_ (le_refl _)
    rw [List.length_drop]
    simp only [List.length_cons]
    omega

lemma chunksOf_flatten {α : Type _} (n : Nat) (hn : 1 ≤ n) :
    ∀ (k : Nat) (l : List α), l.length ≤ k → (chunksOf n l).flatten = l := by
  intro k
  induction k with
  | zero =>
    intro l hl
    have : l = [] := List.eq_nil_of_length_eq_zero (Nat.le_zero.mp hl)
    subst this
    rfl
  | succ k ih =>
    intro l hl
    cases l with
    | nil => rfl
    | cons x xs =>
      rw [chunksOf_cons n hn, List.flatten_cons]
      rw [ih ((x :: xs).drop n) (by rw [List.length_drop]; simp only [List.length_cons] at hl ⊢; omega)]
      exact List.take_append_drop n (x :: xs)

lemma chunksOf_take_flatten {α : Type _} (n : Nat) (hn : 1 ≤ n) :
    ∀ (k : Nat) (l : List α), ((chunksOf n l).take k).flatten = l.take (n * k) := by
  intro k
  induction k with
  | zero => intro l; simp
  | succ k ih =>
    intro l
    cases l with
    | nil => simp [chunksOf_nil]
    | cons x xs =>
      rw [chunksOf_cons n hn, List.take_succ_cons, List.flatten_cons, ih]
      have : n * (k + 1) = n + n * k := by ring
      rw [this, List.take_add]


/-! ### The IMAP mailbox model and the safe archiver -/

/-- Drop everything up to and including the first occurrence of `c`. -/
def dropThrough (c : Char) : List Char → List Char
  | [] => []
  | x :: xs => if x = c then xs else dropThrough c xs

/-- `get_sender_email`: the address between the first angle brackets,
lowercased, else the whole header lowercased and stripped. -/
def get_sender_email (h : String) : String :=
  if h.data.contains '<' && h.data.contains '>' then
    lowerStr ⟨((dropThrough '<' h.data).takeWhile (fun c => !(c = '<'))).takeWhile
      (fun c => !(c = '>'))⟩
  else
    ⟨stripChars (lowerChars h.data)⟩

/-- Strip a given character from both ends (Python `str.strip(c)`). -/
def stripCharEnds (c : Char) (s : List Char) : List Char :=
  ((s.dropWhile (fun x => x = c)).reverse.dropWhile (fun x => x = c)).reverse

/-- `get_sender_name`: display name before the first angle bracket, falling
back to the address when empty. -/
def get_sender_name (h : String) : String :=
  if h.data.contains '<' then
    let name := stripCharEnds '\'' (stripCharEnds '"' (stripChars (h.data.takeWhile (fun c => !(c = '<')))))
    if name.isEmpty then get_sender_email h else ⟨name⟩
  else ⟨stripChars h.data⟩

/-- One message of the live INBOX as seen through UID FETCH. -/
structure BoxMsg where
  uid : String
  from_header : String
  subject : String
deriving DecidableEq

/-- The session's view of the mailbox. -/
structure Mailbox where
  inbox : List BoxMsg
  all_mail_count : Nat
deriving DecidableEq

/-- The server's responses during an archive run: per-batch-offset outcomes
of UID STORE / UID COPY, the All Mail count observed after the expunge and
the outcome of `ensure_archive_folder`. -/
structure ServerBehavior where
  store_ok : Nat → Bool
  copy_ok : Nat → Bool
  post_all_mail : Nat
  archive_folder : Option String

/-- A mailbox mutation the archiver performed. -/
inductive Mut
  | copy (uids : List String) (folder : String)
  | store (uids : List String)
  | expunge
deriving DecidableEq

/-- The outcome of an archive run: the returned count, the resulting mailbox,
the successful mutations in order, whether the safety warning fired, the
resolved UID set, and the count printed by a dry run. -/
structure AResult where
  ret : Nat
  box : Mailbox
  muts : List Mut
  warned : Bool
  matched : List String
  dry_report : Option Nat
deriving DecidableEq

/-- `verify_archive_safety`: non-Gmail always passes (COPY precedes DELETE);
Gmail checks the All Mail count did not decrease. -/
def verify_archive_safety (gmail : Bool) (pre post : Nat) : Bool :=
  if !gmail then true else decide (pre ≤ post)

/-- `scan_inbox_uids_by_sender`: UIDs of INBOX messages whose sender matches
the target set. -/
def scan_inbox_uids_by_sender (box : Mailbox) (target_senders : List String) : List String :=
  box.inbox.filterMap (fun m =>
    if target_senders.contains (get_sender_email m.from_header) then some m.uid else none)

/-- The accumulated effect of the flagging loop. -/
structure FlagRes where
  archived : Nat
  muts : List Mut
  stored : List String
deriving DecidableEq

/-- The per-batch flag loop: non-Gmail copies first (a failed COPY skips the
batch before the STORE); a failed STORE skips the batch after any COPY;
successful batches count their length. -/
def flagBatches (gmail : Bool) (srv : ServerBehavior) (folder : String) :
    Nat → List (List String) → FlagRes
  | _, [] => ⟨0, [], []⟩
  | i, batch :: rest =>
    let r := flagBatches gmail srv folder (i + 1) rest
    if gmail then
      if srv.store_ok i then
        ⟨batch.length + r.archived, Mut.store batch :: r.muts, batch ++ r.stored⟩
      else r
    else
      if srv.copy_ok i then
        if srv.store_ok i then
          ⟨batch.length + r.archived, Mut.copy batch folder :: Mut.store batch :: r.muts,
            batch ++ r.stored⟩
        else ⟨r.archived, Mut.copy batch folder :: r.muts, r.stored⟩
      else r

/-- The mutation path shared by `archive_messages` and `phase2_archive` once
the UID set is resolved and the dry-run check passed: flag in batches, one
expunge, then the safety check. -/
def archive_resolved (box : Mailbox) (matched_uids : List String) (gmail : Bool)
    (srv : ServerBehavior) (batch_size : Nat) : AResult :=
  if gmail then
    let pre := box.all_mail_count
    let r := flagBatches true srv "" 0 (chunksOf batch_size matched_uids)
    let box2 : Mailbox := ⟨box.inbox.filter (fun m => !(r.stored.contains m.uid)), srv.post_all_mail⟩
    ⟨r.archived, box2, r.muts ++ [Mut.expunge],
      !(verify_archive_safety true pre srv.post_all_mail), matched_uids, none⟩
  else
    match srv.archive_folder with
    | none => ⟨0, box, [], false, matched_uids, none⟩
    | some folder =>
      let r := flagBatches false srv folder 0 (chunksOf batch_size matched_uids)
      let box2 : Mailbox := ⟨box.inbox.filter (fun m => !(r.stored.contains m.uid)), box.all_mail_count⟩
      ⟨r.archived, box2, r.muts ++ [Mut.expunge],
        !(verify_archive_safety false 0 srv.post_all_mail), matched_uids, none⟩

/-- `archive_messages`: resolve UIDs by sender; return 0 on no match; report
and return 0 on dry run; otherwise flag, expunge and safety-check. -/
def archive_messages (box : Mailbox) (archive_senders : List String) (dry_run : Bool)
    (batch_size : Nat) (gmail : Bool) (srv : ServerBehavior) : AResult :=
  let target := archive_senders.map lowerStr
  let matched_uids := scan_inbox_uids_by_sender box target
  if matched_uids.isEmpty then ⟨0, box, [], false, matched_uids, none⟩
  else if dry_run then ⟨0, box, [], false, matched_uids, some matched_uids.length⟩
  else archive_resolved box matched_uids gmail srv batch_size

/-- `scan_inbox_uids_for_phase2`: UIDs of INBOX messages whose
(sender, normalised subject) key matches a targeted message from the stored
pass-2 records (`msg_id` is only used to look the stored record up). -/
def scan_inbox_uids_for_phase2 (box : Mailbox) (target_msg_ids : List String)
    (lookup : List Msg) : List String :=
  let target_keys := target_msg_ids.filterMap (fun mid =>
    (lookup.find? (fun m => m.msg_id == mid)).map (fun m =>
      (lowerStr m.from_email, lowerStr (normalise_subject m.subject))))
  box.inbox.filterMap (fun bm =>
    if target_keys.contains
        (lowerStr (get_sender_email bm.from_header), lowerStr (normalise_subject bm.subject)) then
      some bm.uid
    else none)

/-- `phase2_archive`: same flow, resolving by (sender, subject) keys. -/
def phase2_archive (box : Mailbox) (archive_msg_ids : List String) (lookup : List Msg)
    (dry_run : Bool) (batch_size : Nat) (gmail : Bool) (srv : ServerBehavior) : AResult :=
  if archive_msg_ids.isEmpty then ⟨0, box, [], false, [], none⟩
  else
    let matched_uids := scan_inbox_uids_for_phase2 box archive_msg_ids lookup
    if matched_uids.isEmpty then ⟨0, box, [], false, matched_uids, none⟩
    else if dry_run then ⟨0, box, [], false, matched_uids, some matched_uids.length⟩
    else archive_resolved box matched_uids gmail srv batch_size


/-! ### Claim theorems: the archiver -/

/-- A mailbox with two messages from one spam sender. -/
def c5_box : Mailbox :=
  ⟨[⟨"11", "Spam <spam@x.com>", "Buy now"⟩, ⟨"12", "Spam <spam@x.com>", "Buy again"⟩], 10⟩

/-- A fully cooperative server. -/
def c5_srv : ServerBehavior := ⟨fun _ => true, fun _ => true, 10, some "Archive"⟩

/-- C5 counterexample: a dry run that matches 2 messages returns 0, not the
matched count — the matched count is only printed. -/
theorem C5_counterexample :
    (archive_messages c5_box ["spam@x.com"] true 200 true c5_srv).matched.length = 2 ∧
    (archive_messages c5_box ["spam@x.com"] true 200 true c5_srv).ret = 0 ∧
    ¬((archive_messages c5_box ["spam@x.com"] true 200 true c5_srv).ret =
      (archive_messages c5_box ["spam@x.com"] true 200 true c5_srv).matched.length) := by
  decide

/-- C5 (amended): a dry run performs no mutation (no flag, no copy, no
expunge), leaves the mailbox untouched, reports the matched count in its
output when anything matched, and returns 0. -/
theorem C5_dry_run_amended :
    (∀ (box : Mailbox) (senders : List String) (bs : Nat) (gmail : Bool) (srv : ServerBehavior),
      (archive_messages box senders true bs gmail srv).ret = 0 ∧
      (archive_messages box senders true bs gmail srv).muts = [] ∧
      (archive_messages box senders true bs gmail srv).box = box ∧
      (archive_messages box senders true bs gmail srv).dry_report =
        (if (archive_messages box senders true bs gmail srv).matched.isEmpty then none
         else some (archive_messages box senders true bs gmail srv).matched.length)) ∧
    (∀ (box : Mailbox) (ids : List String) (lookup : List Msg) (bs : Nat) (gmail : Bool)
        (srv : ServerBehavior),
      (phase2_archive box ids lookup true bs gmail srv).ret = 0 ∧
      (phase2_archive box ids lookup true bs gmail srv).muts = [] ∧
      (phase2_archive box ids lookup true bs gmail srv).box = box ∧
      (phase2_archive box ids lookup true bs gmail srv).dry_report =
        (if (phase2_archive box ids lookup true bs gmail srv).matched.isEmpty then none
         else some (phase2_archive box ids lookup true bs gmail srv).matched.length)) := by
  constructor
  · intro box senders bs gmail srv
    unfold archive_messages
    dsimp only
    by_cases h1 : (scan_inbox_uids_by_sender box (senders.map lowerStr)).isEmpty = true
    · rw [if_pos h1]
      simp [h1]
    · rw [if_neg h1, if_pos rfl]
      simp [h1]
  · intro box ids lookup bs gmail srv
    unfold phase2_archive
    dsimp only
    by_cases h0 : ids.isEmpty = true
    · rw [if_pos h0]
      simp
    · rw [if_neg h0]
      by_cases h1 : (scan_inbox_uids_for_phase2 box ids lookup).isEmpty = true
      · rw [if_pos h1]
        simp [h1]
      · rw [if_neg h1, if_pos rfl]
        simp [h1]

lemma flagBatches_post_irrel (gmail : Bool) (sok cok : Nat → Bool) (p q : Nat)
    (f g : Option String) (folder : String) :
    ∀ (i : Nat) (batches : List (List String)),
      flagBatches gmail ⟨sok, cok, p, f⟩ folder i batches =
        flagBatches gmail ⟨sok, cok, q, g⟩ folder i batches := by
  intro i batches
  induction batches generalizing i with
  | nil => rfl
  | cons b rest ih => simp only [flagBatches, ih]

lemma flagBatches_all_ok (srv : ServerBehavior) (h : ∀ i, srv.store_ok i = true)
    (folder : String) :
    ∀ (i : Nat) (batches : List (List String)),
      (flagBatches true srv folder i batches).archived = batches.flatten.length := by
  intro i batches
  induction batches generalizing i with
  | nil => rfl
  | cons b rest ih =>
    simp only [flagBatches, if_pos rfl, h, if_true, List.flatten_cons, List.length_append]
    rw [ih]

/-- C6: the Backend A safety check never changes the returned count and never
aborts — the count is identical whatever All Mail count the server reports
after compaction; the warning fires exactly when the post count dropped below
the pre-mutation snapshot; Backend B's (non-Gmail) check always passes; and
with every STORE succeeding the run returns exactly the number of resolved
UIDs it flagged. -/
theorem C6_safety_check_nonfatal (box : Mailbox) (senders : List String) (bs : Nat)
    (sok cok : Nat → Bool) (p q : Nat) (f g : Option String) :
    ((archive_messages box senders false bs true ⟨sok, cok, p, f⟩).ret =
      (archive_messages box senders false bs true ⟨sok, cok, q, g⟩).ret) ∧
    ((archive_messages box senders false bs true ⟨sok, cok, p, f⟩).warned =
      (!(archive_messages box senders false bs true ⟨sok, cok, p, f⟩).matched.isEmpty &&
        decide (p < box.all_mail_count))) ∧
    (∀ pre post : Nat, verify_archive_safety false pre post = true) ∧
    ((archive_messages box senders false 200 true ⟨fun _ => true, cok, p, f⟩).ret =
      (scan_inbox_uids_by_sender box (senders.map lowerStr)).length) := by
  refine ⟨?_, ?_, ?_, ?_⟩
  · unfold archive_messages
    dsimp only
    by_cases h1 : (scan_inbox_uids_by_sender box (senders.map lowerStr)).isEmpty = true
    · rw [if_pos h1, if_pos h1]
    · rw [if_neg h1, if_neg h1, if_neg (by simp : ¬(false = true)),
        if_neg (by simp : ¬(false = true))]
      unfold archive_resolved
      rw [if_pos rfl, if_pos rfl]
      dsimp only
      exact congrArg FlagRes.archived (flagBatches_post_irrel true sok cok p q f g "" 0 _)
  · unfold archive_messages
    dsimp only
    by_cases h1 : (scan_inbox_uids_by_sender box (senders.map lowerStr)).isEmpty = true
    · rw [if_pos h1]
      simp [h1]
    · rw [if_neg h1, if_neg (by simp : ¬(false = true))]
      unfold archive_resolved
      rw [if_pos rfl]
      dsimp only
      simp only [h1, Bool.not_false, Bool.true_and, Bool.not_eq_true]
      rw [verify_archive_safety]
      by_cases hp : box.all_mail_count ≤ p
      · simp [hp, Nat.not_lt.mpr hp, h1]
      · simp [hp, Nat.lt_of_not_le hp, h1]
  · intro pre post; rfl
  · unfold archive_messages
    dsimp only
    by_cases h1 : (scan_inbox_uids_by_sender box (senders.map lowerStr)).isEmpty = true
    · rw [if_pos h1]
      rw [List.isEmpty_iff] at h1
      rw [h1]
      rfl
    · rw [if_neg h1, if_neg (by simp : ¬(false = true))]
      unfold archive_resolved
      rw [if_pos rfl]
      dsimp only
      rw [flagBatches_all_ok _ (fun _ => rfl) _]
      rw [chunksOf_flatten 200 (by omega) _ _ (le_refl _)]

/-- C9: when no inbox message matches the target sender set, resolution
matches zero UIDs and the archiver returns 0 with no mutation and an
unchanged mailbox, raising no error. -/
theorem C9_removed_targets (box : Mailbox) (senders : List String) (dry : Bool) (bs : Nat)
    (gmail : Bool) (srv : ServerBehavior)
    (h : ∀ m ∈ box.inbox, get_sender_email m.from_header ∉ senders.map lowerStr) :
    scan_inbox_uids_by_sender box (senders.map lowerStr) = [] ∧
    (archive_messages box senders dry bs gmail srv).ret = 0 ∧
    (archive_messages box senders dry bs gmail srv).muts = [] ∧
    (archive_messages box senders dry bs gmail srv).box = box := by
  have hscan : scan_inbox_uids_by_sender box (senders.map lowerStr) = [] := by
    rw [scan_inbox_uids_by_sender]
    rw [List.filterMap_eq_nil]
    intro m hm
    rw [if_neg]
    intro hc
    exact h m hm (by simpa using hc)
  refine ⟨hscan, ?_, ?_, ?_⟩ <;>
    · unfold archive_messages
      dsimp only
      rw [hscan]
      rfl

/-- A mailbox whose two messages are from an already-archived sender. -/
def c9_box : Mailbox := ⟨[⟨"21", "Kept <keep@y.com>", "hello"⟩], 5⟩

/-- Witness for C9: targeting a sender with no remaining inbox messages
matches nothing and mutates nothing. -/
theorem C9_removed_targets_witness :
    scan_inbox_uids_by_sender c9_box (["gone@z.com"].map lowerStr) = [] ∧
    (archive_messages c9_box ["gone@z.com"] false 200 true c5_srv).ret = 0 ∧
    (archive_messages c9_box ["gone@z.com"] false 200 true c5_srv).muts = [] ∧
    (archive_messages c9_box ["gone@z.com"] false 200 true c5_srv).box = c9_box := by
  exact C9_removed_targets c9_box ["gone@z.com"] false 200 true c5_srv (by decide)


/-! ### Claim C7: persisted identifiers -/

/-- A live message as the metadata fetch sees it: its stable UID, headers
(post MIME decoding), raw date header and unseen state. -/
structure RawMsg where
  uid : String
  from_header : String
  subject : String
  date_str : String
  unseen : Bool
deriving DecidableEq

/-- The record `fetch_metadata` builds and persists (`msg_id` is the decoded
sequence number taken from the FETCH response line). -/
structure MetaRecord where
  msg_id : String
  from_email : String
  from_name : String
  subject : String
  date : String
  is_unread : Bool
deriving DecidableEq

/-- `fetch_metadata`'s record list over a session whose INBOX holds `inbox`
(in sequence-number order): message i+1 gets msg_id `toString (i+1)`; the
checkpoint and `all_messages.json` persist exactly these records. -/
def fetch_metadata_records (inbox : List RawMsg) : List MetaRecord :=
  inbox.enum.map (fun p =>
    { msg_id := toString (p.1 + 1)
      from_email := get_sender_email p.2.from_header
      from_name := get_sender_name p.2.from_header
      subject := p.2.subject
      date := p.2.date_str
      is_unread := p.2.unseen })

/-- A one-message session whose single message has UID 1042. -/
def c7_inbox : List RawMsg := [⟨"1042", "Alice <alice@example.com>", "Hi", "2024-01-01", true⟩]

/-- C7 counterexample: the id persisted in the checkpoint/report records is
the session sequence number ("1"), not the stable UID ("1042"). -/
theorem C7_counterexample :
    (fetch_metadata_records c7_inbox).map MetaRecord.msg_id = ["1"] ∧
    c7_inbox.map RawMsg.uid = ["1042"] ∧
    ¬((fetch_metadata_records c7_inbox).map MetaRecord.msg_id = c7_inbox.map RawMsg.uid) := by
  decide

lemma enumFrom_map_idx {α : Type _} :
    ∀ (l : List α) (n : Nat),
      (List.enumFrom n l).map (fun p => toString (p.1 + 1)) =
        (List.range' n l.length).map (fun i => toString (i + 1)) := by
  intro l
  induction l with
  | nil => intro n; rfl
  | cons x xs ih =>
    intro n
    rw [List.enumFrom_cons, List.map_cons, ih, List.length_cons, List.range'_succ, List.map_cons]

lemma flagBatches_muts_char (gmail : Bool) (srv : ServerBehavior) (folder : String) :
    ∀ (i : Nat) (batches : List (List String)) (mu : Mut),
      mu ∈ (flagBatches gmail srv folder i batches).muts →
      ∃ b ∈ batches, mu = Mut.copy b folder ∨ mu = Mut.store b := by
  intro i batches
  induction batches generalizing i with
  | nil => intro mu hmu; simp [flagBatches] at hmu
  | cons b rest ih =>
    intro mu hmu
    rw [flagBatches] at hmu
    split_ifs at hmu <;> (try dsimp only at hmu) <;>
      · have hmu2 : mu = Mut.copy b folder ∨ mu = Mut.store b ∨
            mu ∈ (flagBatches gmail srv folder (i + 1) rest).muts := by
          try simp only [List.mem_cons] at hmu
          tauto
        rcases hmu2 with rfl | rfl | h
        · exact ⟨b, List.mem_cons_self b rest, Or.inl rfl⟩
        · exact ⟨b, List.mem_cons_self b rest, Or.inr rfl⟩
        · obtain ⟨b0, hb0, hc⟩ := ih (i + 1) mu h
          exact ⟨b0, List.mem_cons_of_mem b hb0, hc⟩

lemma chunksOfAux_mem_subset {α : Type _} :
    ∀ (fuel n : Nat) (l b : List α), b ∈ chunksOfAux fuel n l → ∀ x ∈ b, x ∈ l := by
  intro fuel
  induction fuel with
  | zero => intro n l b hb; simp [chunksOfAux] at hb
  | succ f ih =>
    intro n l b hb x hx
    cases l with
    | nil => simp [chunksOfAux] at hb
    | cons y ys =>
      rw [chunksOfAux] at hb
      rcases List.mem_cons.mp hb with rfl | hb2
      · exact List.take_subset n _ hx
      · have := ih n _ b hb2 x hx
        exact List.mem_cons_of_mem y (List.drop_subset _ _ this)

lemma scan_by_sender_subset (box : Mailbox) (targets : List String) :
    ∀ u ∈ scan_inbox_uids_by_sender box targets, u ∈ box.inbox.map BoxMsg.uid := by
  intro u hu
  rw [scan_inbox_uids_by_sender, List.mem_filterMap] at hu
  obtain ⟨m, hm, hmu⟩ := hu
  rw [List.mem_map]
  refine ⟨m, hm, ?_⟩
  by_cases hc : targets.contains (get_sender_email m.from_header) = true
  · rw [if_pos hc] at hmu; exact Option.some.inj hmu
  · rw [if_neg hc] at hmu; cases hmu

/-- C7 (amended): the ids `fetch_metadata` persists are exactly the session
sequence numbers 1..n — not the stable UIDs; the pipeline compensates by
never handing persisted ids to a mutation: phase-2 resolution re-derives
current UIDs by (sender, normalised subject) matching, every resolved UID is
a UID of the live INBOX, and every flag/copy mutation of an archive run
operates only on UIDs resolved from the live INBOX in that same session. -/
theorem C7_amended :
    (∀ inbox : List RawMsg, (fetch_metadata_records inbox).map MetaRecord.msg_id =
        (List.range inbox.length).map (fun i => toString (i + 1))) ∧
    (∀ (box : Mailbox) (ids : List String) (lookup : List Msg),
        ∀ u ∈ scan_inbox_uids_for_phase2 box ids lookup, u ∈ box.inbox.map BoxMsg.uid) ∧
    (∀ (box : Mailbox) (senders : List String) (dry : Bool) (bs : Nat) (gmail : Bool)
        (srv : ServerBehavior) (uids : List String) (folder : String),
        (Mut.copy uids folder ∈ (archive_messages box senders dry bs gmail srv).muts ∨
         Mut.store uids ∈ (archive_messages box senders dry bs gmail srv).muts) →
        ∀ u ∈ uids, u ∈ box.inbox.map BoxMsg.uid) := by
  refine ⟨?_, ?_, ?_⟩
  · intro inbox
    rw [fetch_metadata_records, List.map_map]
    have : (MetaRecord.msg_id ∘ fun p : Nat × RawMsg =>
        ({ msg_id := toString (p.1 + 1), from_email := get_sender_email p.2.from_header,
           from_name := get_sender_name p.2.from_header, subject := p.2.subject,
           date := p.2.date_str, is_unread := p.2.unseen } : MetaRecord)) =
        fun p : Nat × RawMsg => toString (p.1 + 1) := rfl
    rw [this, List.enum, enumFrom_map_idx, List.range_eq_range']
  · intro box ids lookup u hu
    rw [scan_inbox_uids_for_phase2] at hu
    rw [List.mem_filterMap] at hu
    obtain ⟨m, hm, hmu⟩ := hu
    rw [List.mem_map]
    refine ⟨m, hm, ?_⟩
    split at hmu
    · exact Option.some.inj hmu
    · cases hmu
  · intro box senders dry bs gmail srv uids folder hmu u hu
    have hmatched : ∀ v ∈ scan_inbox_uids_by_sender box (senders.map lowerStr),
        v ∈ box.inbox.map BoxMsg.uid := scan_by_sender_subset box _
    have hmuts : ∀ mu ∈ (archive_messages box senders dry bs gmail srv).muts,
        ∃ b, (∀ x ∈ b, x ∈ scan_inbox_uids_by_sender box (senders.map lowerStr)) ∧
          (mu = Mut.copy b folder ∨ mu = Mut.store b ∨ mu = Mut.expunge ∨
            ∃ f2, mu = Mut.copy b f2) := by
      intro mu hmu2
      unfold archive_messages at hmu2
      dsimp only at hmu2
      split_ifs at hmu2
      · simp at hmu2
      · simp at hmu2
      · unfold archive_resolved at hmu2
        split at hmu2
        · dsimp only at hmu2
          rcases List.mem_append.mp hmu2 with hmu3 | hmu3
          · obtain ⟨b, hb, hc⟩ := flagBatches_muts_char true srv "" 0 _ mu hmu3
            refine ⟨b, fun x hx => chunksOfAux_mem_subset _ _ _ b hb x hx, ?_⟩
            rcases hc with rfl | rfl
            · exact Or.inr (Or.inr (Or.inr ⟨"", rfl⟩))
            · exact Or.inr (Or.inl rfl)
          · rcases List.mem_singleton.mp hmu3 with rfl
            exact ⟨[], by simp, Or.inr (Or.inr (Or.inl rfl))⟩
        · split at hmu2
          · dsimp only at hmu2
            simp at hmu2
          · dsimp only at hmu2
            rcases List.mem_append.mp hmu2 with hmu3 | hmu3
            · obtain ⟨b, hb, hc⟩ := flagBatches_muts_char false srv _ 0 _ mu hmu3
              refine ⟨b, fun x hx => chunksOfAux_mem_subset _ _ _ b hb x hx, ?_⟩
              rcases hc with rfl | rfl
              · exact Or.inr (Or.inr (Or.inr ⟨_, rfl⟩))
              · exact Or.inr (Or.inl rfl)
            · rcases List.mem_singleton.mp hmu3 with rfl
              exact ⟨[], by simp, Or.inr (Or.inr (Or.inl rfl))⟩
    rcases hmu with hmu | hmu <;>
      · obtain ⟨b, hb, hc⟩ := hmuts _ hmu
        rcases hc with hc | hc | hc | ⟨f2, hc⟩ <;> (try cases hc) <;>
          exact hmatched u (hb u hu)


/-- A live box and stored pass-2 record whose (sender, subject) keys match. -/
def c7_box : Mailbox := ⟨[⟨"31", "A <a@x.com>", "Re: hello there"⟩], 3⟩

/-- The stored pass-2 record the phase-2 scan looks up by persisted id. -/
def c7_lookup : List Msg := [⟨"7", "a@x.com", "A", "hello there", some 0, "", ""⟩]

/-- Witness for the amended C7: the persisted ids are the sequence numbers,
and the phase-2 resolution returns only current INBOX UIDs. -/
theorem C7_amended_witness :
    (fetch_metadata_records c7_inbox).map MetaRecord.msg_id = ["1"] ∧
    "31" ∈ c7_box.inbox.map BoxMsg.uid := by
  constructor
  · exact (C7_amended.1 c7_inbox).trans (by decide)
  · exact C7_amended.2.1 c7_box ["7"] c7_lookup "31" (by decide)


/-! ### Claim C2: checkpointed, resumable fetching -/

/-- The identifiers a resumed run still has to request: those of `msg_ids`
whose records are missing from the checkpoint. -/
def remaining_ids (msg_ids : List String) (cpMsgs : List MetaRecord) : List String :=
  msg_ids.filter (fun mid => !((cpMsgs.map MetaRecord.msg_id).contains mid))

/-- `fetch_metadata` over an abstract response function: load the checkpoint,
re-request only the missing identifiers in batches of 500, skip per-message
parse failures (`server` returns `none`), append responses in order. -/
def fetch_metadata_run (server : String → Option MetaRecord) (msg_ids : List String)
    (cp : Option (List MetaRecord)) : List MetaRecord :=
  let messages := cp.getD []
  messages ++
    ((chunksOf 500 (remaining_ids msg_ids messages)).map (fun b => b.filterMap server)).flatten

/-- The checkpoint contents after the run is interrupted right after its
k-th completed batch (`save_checkpoint` writes the full list every batch). -/
def fetch_metadata_interrupted (server : String → Option MetaRecord) (msg_ids : List String)
    (cp : Option (List MetaRecord)) (k : Nat) : List MetaRecord :=
  let messages := cp.getD []
  messages ++
    (((chunksOf 500 (remaining_ids msg_ids messages)).take k).map
      (fun b => b.filterMap server)).flatten

/-- The body identifiers a resumed run still has to request. -/
def remaining_body_ids (msg_ids : List String) (results : List (String × String)) : List String :=
  msg_ids.filter (fun mid => !((results.map Prod.fst).contains mid))

/-- `fetch_bodies_batch` over an abstract body server: batches of 50, the
results dict modelled as an association list in insertion order. -/
def fetch_bodies_run (bserver : String → Option String) (msg_ids : List String)
    (cp : Option (List (String × String))) : List (String × String) :=
  let results := cp.getD []
  results ++
    ((chunksOf 50 (remaining_body_ids msg_ids results)).map
      (fun b => b.filterMap (fun mid => (bserver mid).map (fun v => (mid, v))))).flatten

/-- The bodies checkpoint after interruption following the j-th batch. -/
def fetch_bodies_interrupted (bserver : String → Option String) (msg_ids : List String)
    (cp : Option (List (String × String))) (j : Nat) : List (String × String) :=
  let results := cp.getD []
  results ++
    (((chunksOf 50 (remaining_body_ids msg_ids results)).take j).map
      (fun b => b.filterMap (fun mid => (bserver mid).map (fun v => (mid, v))))).flatten

lemma map_filterMap_flatten {β : Type _} (server : String → Option β) :
    ∀ (L : List (List String)),
      (L.map (fun b => b.filterMap server)).flatten = L.flatten.filterMap server := by
  intro L
  induction L with
  | nil => rfl
  | cons b rest ih =>
    rw [List.map_cons, List.flatten_cons, List.flatten_cons, List.filterMap_append, ih]

lemma filterMap_filter_isNone {β : Type _} (f : String → Option β) :
    ∀ l : List String, (l.filter (fun a => !(f a).isSome)).filterMap f = [] := by
  intro l
  induction l with
  | nil => rfl
  | cons a t ih =>
    rw [List.filter_cons]
    by_cases ha : (f a).isSome = true
    · simp [ha, ih]
    · rw [if_pos (by simp [ha])]
      rw [List.filterMap_cons]
      cases hfa : f a with
      | none => exact ih
      | some r => rw [hfa] at ha; simp at ha

lemma filter_not_contains_nil {β : Type _} (f : β → String) (ids : List String) :
    ids.filter (fun mid => !((([] : List β).map f).contains mid)) = ids := by
  rw [List.filter_eq_self]
  intro a _
  rfl

lemma resume_core {β : Type _} (idOf : β → String) (server : String → Option β)
    (hserver : ∀ id r, server id = some r → idOf r = id)
    (n : Nat) (hn : 1 ≤ n) (msg_ids : List String) (hnd : msg_ids.Nodup) (k : Nat) :
    ((((chunksOf n msg_ids).take k).map (fun b => b.filterMap server)).flatten ++
      ((chunksOf n (msg_ids.filter (fun mid =>
          !((((((chunksOf n msg_ids).take k).map (fun b => b.filterMap server)).flatten).map
            idOf).contains mid)))).map (fun b => b.filterMap server)).flatten)
      = msg_ids.filterMap server := by
  have hcp : (((chunksOf n msg_ids).take k).map (fun b => b.filterMap server)).flatten =
      (msg_ids.take (n * k)).filterMap server := by
    rw [map_filterMap_flatten, chunksOf_take_flatten n hn]
  rw [hcp]
  have hmemfetched : ∀ mid : String,
      mid ∈ ((msg_ids.take (n * k)).filterMap server).map idOf ↔
        (mid ∈ msg_ids.take (n * k) ∧ (server mid).isSome = true) := by
    intro mid
    rw [List.mem_map]
    constructor
    · rintro ⟨r, hr, rfl⟩
      rw [List.mem_filterMap] at hr
      obtain ⟨id2, hid2, hs⟩ := hr
      rw [hserver id2 r hs]
      exact ⟨hid2, by simp [hs]⟩
    · rintro ⟨hmem, hsome⟩
      obtain ⟨r, hr⟩ := Option.isSome_iff_exists.mp hsome
      exact ⟨r, List.mem_filterMap.mpr ⟨mid, hmem, hr⟩, hserver mid r hr⟩
  have hrem : msg_ids.filter (fun mid =>
      !((((msg_ids.take (n * k)).filterMap server).map idOf).contains mid)) =
      (msg_ids.take (n * k)).filter (fun mid => !(server mid).isSome) ++ msg_ids.drop (n * k) := by
    conv_lhs => rw [← List.take_append_drop (n * k) msg_ids]
    rw [List.filter_append]
    congr 1
    · refine List.filter_congr ?_
      intro mid hmid
      congr 1
      by_cases hs : (server mid).isSome = true
      · have : mid ∈ ((msg_ids.take (n * k)).filterMap server).map idOf :=
          (hmemfetched mid).mpr ⟨hmid, hs⟩
        simp [hs, this]
      · have : mid ∉ ((msg_ids.take (n * k)).filterMap server).map idOf := by
          intro hc
          exact hs ((hmemfetched mid).mp hc).2
        simp [hs, this]
    · rw [List.filter_eq_self]
      intro mid hmid
      have hdisj := List.disjoint_take_drop hnd (le_refl (n * k))
      have hnotin : mid ∉ ((msg_ids.take (n * k)).filterMap server).map idOf := by
        intro hc
        exact hdisj ((hmemfetched mid).mp hc).1 hmid
      simp [hnotin]
  rw [hrem, map_filterMap_flatten,
    chunksOf_flatten n hn ((msg_ids.take (n * k)).filter (fun mid => !(server mid).isSome) ++
      msg_ids.drop (n * k)).length _ (le_refl _),
    List.filterMap_append, filterMap_filter_isNone, List.nil_append,
    ← List.filterMap_append, List.take_append_drop]

/-- C2: interrupting a checkpointed fetch after any completed batch and
resuming from the saved checkpoint yields exactly the record list of a
single uninterrupted run; the resumption keeps everything already fetched (the
checkpoint is a prefix of the resumed output) and re-requests exactly the
identifiers missing from the checkpoint — for the metadata fetch and for the
body fetch. -/
theorem C2_resumable_fetch (server : String → Option MetaRecord)
    (bserver : String → Option String) (msg_ids body_ids : List String) (k j : Nat)
    (hnd : msg_ids.Nodup) (hbnd : body_ids.Nodup)
    (hserver : ∀ id r, server id = some r → r.msg_id = id) :
    (fetch_metadata_run server msg_ids
        (some (fetch_metadata_interrupted server msg_ids none k)) =
      fetch_metadata_run server msg_ids none) ∧
    (fetch_metadata_interrupted server msg_ids none k) <+:
      (fetch_metadata_run server msg_ids
        (some (fetch_metadata_interrupted server msg_ids none k))) ∧
    (∀ mid, mid ∈ remaining_ids msg_ids (fetch_metadata_interrupted server msg_ids none k) ↔
      (mid ∈ msg_ids ∧
        mid ∉ (fetch_metadata_interrupted server msg_ids none k).map MetaRecord.msg_id)) ∧
    (fetch_bodies_run bserver body_ids
        (some (fetch_bodies_interrupted bserver body_ids none j)) =
      fetch_bodies_run bserver body_ids none) ∧
    (fetch_bodies_interrupted bserver body_ids none j) <+:
      (fetch_bodies_run bserver body_ids
        (some (fetch_bodies_interrupted bserver body_ids none j))) := by
  have hmeta_int : fetch_metadata_interrupted server msg_ids none k =
      (((chunksOf 500 msg_ids).take k).map (fun b => b.filterMap server)).flatten := by
    rw [fetch_metadata_interrupted]
    dsimp only [Option.getD]
    rw [remaining_ids, filter_not_contains_nil MetaRecord.msg_id, List.nil_append]
  have hmeta_none : fetch_metadata_run server msg_ids none = msg_ids.filterMap server := by
    rw [fetch_metadata_run]
    dsimp only [Option.getD]
    rw [remaining_ids, filter_not_contains_nil MetaRecord.msg_id, List.nil_append,
      map_filterMap_flatten, chunksOf_flatten 500 (by omega) msg_ids.length _ (le_refl _)]
  have hbody_int : fetch_bodies_interrupted bserver body_ids none j =
      (((chunksOf 50 body_ids).take j).map
        (fun b => b.filterMap (fun mid => (bserver mid).map (fun v => (mid, v))))).flatten := by
    rw [fetch_bodies_interrupted]
    dsimp only [Option.getD]
    rw [remaining_body_ids, filter_not_contains_nil Prod.fst, List.nil_append]
  have hbody_none : fetch_bodies_run bserver body_ids none =
      body_ids.filterMap (fun mid => (bserver mid).map (fun v => (mid, v))) := by
    rw [fetch_bodies_run]
    dsimp only [Option.getD]
    rw [remaining_body_ids, filter_not_contains_nil Prod.fst, List.nil_append,
      map_filterMap_flatten, chunksOf_flatten 50 (by omega) body_ids.length _ (le_refl _)]
  refine ⟨?_, ?_, ?_, ?_, ?_⟩
  · rw [fetch_metadata_run, hmeta_int, hmeta_none]
    dsimp only [Option.getD]
    rw [remaining_ids]
    exact resume_core MetaRecord.msg_id server hserver 500 (by omega) msg_ids hnd k
  · rw [fetch_metadata_run]
    dsimp only [Option.getD]
    exact List.prefix_append _ _
  · intro mid
    rw [remaining_ids, List.mem_filter]
    constructor
    · rintro ⟨hmem, hc⟩
      refine ⟨hmem, ?_⟩
      intro hin
      simp [hin] at hc
    · rintro ⟨hmem, hnin⟩
      exact ⟨hmem, by simp [hnin]⟩
  · rw [fetch_bodies_run, hbody_int, hbody_none]
    dsimp only [Option.getD]
    rw [remaining_body_ids]
    exact resume_core Prod.fst (fun mid => (bserver mid).map (fun v => (mid, v)))
      (by
        intro id r hr
        rw [Option.map_eq_some'] at hr
        obtain ⟨v, _, rfl⟩ := hr
        rfl)
      50 (by omega) body_ids hbnd j
  · rw [fetch_bodies_run]
    dsimp only [Option.getD]
    exact List.prefix_append _ _


/-- A concrete response function: identifier "2" fails to parse. -/
def c2_server (id : String) : Option MetaRecord :=
  if id = "2" then none else some ⟨id, "a@x.com", "A", "s", "", false⟩

lemma c2_server_id : ∀ (id : String) (r : MetaRecord), c2_server id = some r → r.msg_id = id := by
  intro id r h
  unfold c2_server at h
  split at h
  · cases h
  · rw [← Option.some.inj h]

/-- Witness for C2: interrupting after the first batch and resuming
reproduces the uninterrupted run on a concrete three-identifier session. -/
theorem C2_resumable_fetch_witness :
    fetch_metadata_run c2_server ["1", "2", "3"]
        (some (fetch_metadata_interrupted c2_server ["1", "2", "3"] none 1)) =
      fetch_metadata_run c2_server ["1", "2", "3"] none := by
  exact (C2_resumable_fetch c2_server (fun _ => none) ["1", "2", "3"] [] 1 0
    (by decide) (by decide) c2_server_id).1

/-! ### Claim C3: atomic checkpoint saves -/

/-- The file-system operations `save_checkpoint` issues: truncate-open the
temp file, write chunks to it, atomically rename it over the target. -/
inductive FsStep
  | openTmp
  | writeChunk (s : String)
  | renameOver
deriving DecidableEq

/-- The observable file-system state: the contents of the checkpoint path
and of its temp file, `none` when absent. -/
structure FsState where
  target : Option String
  tmp : Option String
deriving DecidableEq

/-- Small-step semantics of the three operations. -/
def fs_apply (st : FsState) : FsStep → FsState
  | FsStep.openTmp => ⟨st.target, some ""⟩
  | FsStep.writeChunk s => ⟨st.target, some ((st.tmp.getD "") ++ s)⟩
  | FsStep.renameOver => ⟨some (st.tmp.getD ""), none⟩

/-- Run a sequence of file-system operations. -/
def run_steps (st : FsState) (steps : List FsStep) : FsState :=
  steps.foldl fs_apply st

/-- `save_checkpoint data`: open the temp file, write the serialized data in
some chunks, then one atomic rename over the target. -/
def save_checkpoint_steps (chunks : List String) : List FsStep :=
  FsStep.openTmp :: (chunks.map FsStep.writeChunk ++ [FsStep.renameOver])

/-- `load_checkpoint` reads the target path (`none` when absent). -/
def load_checkpoint (st : FsState) : Option String := st.target

lemma run_steps_writes_target : ∀ (chunks : List String) (st : FsState),
    (run_steps st (chunks.map FsStep.writeChunk)).target = st.target := by
  intro chunks
  induction chunks with
  | nil => intro st; rfl
  | cons c rest ih => intro st; exact ih _

lemma join_cons (c : String) (rest : List String) :
    String.join (c :: rest) = c ++ String.join rest := by
  refine String.ext ?_
  rw [String.data_append, String.join_eq, String.join_eq]
  simp

lemma run_steps_writes_tmp : ∀ (chunks : List String) (st : FsState) (s0 : String),
    st.tmp = some s0 →
    (run_steps st (chunks.map FsStep.writeChunk)).tmp = some (s0 ++ String.join chunks) := by
  intro chunks
  induction chunks with
  | nil =>
    intro st s0 h
    simp [run_steps, h, String.join]
  | cons c rest ih =>
    intro st s0 h
    rw [List.map_cons, run_steps, List.foldl_cons]
    have happ : (fs_apply st (FsStep.writeChunk c)).tmp = some (s0 ++ c) := by
      simp [fs_apply, h]
    have hrec := ih (fs_apply st (FsStep.writeChunk c)) (s0 ++ c) happ
    rw [run_steps] at hrec
    rw [hrec, join_cons, String.append_assoc]

/-- C3: however the save is interrupted, the checkpoint path holds either
what it held before the save or the complete new snapshot — a reader (the
loader included) can never observe a partial write; and the completed save
leaves exactly the new snapshot. -/
theorem C3_atomic_checkpoint (st : FsState) (chunks : List String) (data : String)
    (hdata : String.join chunks = data) :
    (∀ k : Nat,
      load_checkpoint (run_steps st ((save_checkpoint_steps chunks).take k)) = st.target ∨
      load_checkpoint (run_steps st ((save_checkpoint_steps chunks).take k)) = some data) ∧
    load_checkpoint (run_steps st (save_checkpoint_steps chunks)) = some data := by
  have hW : ∀ (m : Nat) (stx : FsState),
      (run_steps stx ((chunks.map FsStep.writeChunk).take m)).target = stx.target := by
    intro m stx
    rw [← List.map_take]
    exact run_steps_writes_target _ _
  have hfull : run_steps st (save_checkpoint_steps chunks) = ⟨some data, none⟩ := by
    rw [save_checkpoint_steps, run_steps, List.foldl_cons, List.foldl_append]
    have h2 := run_steps_writes_tmp chunks (fs_apply st FsStep.openTmp) "" rfl
    rw [run_steps] at h2
    have hr : ∀ X : FsState, List.foldl fs_apply X [FsStep.renameOver] =
        ⟨some (X.tmp.getD ""), none⟩ := fun X => rfl
    rw [hr, h2]
    simp [hdata]
  refine ⟨?_, by rw [load_checkpoint, hfull]⟩
  intro k
  cases k with
  | zero => left; rfl
  | succ k2 =>
    rw [save_checkpoint_steps, List.take_succ_cons]
    rcases le_or_lt k2 chunks.length with hk | hk
    · left
      have htake : ((chunks.map FsStep.writeChunk) ++ [FsStep.renameOver]).take k2 =
          (chunks.map FsStep.writeChunk).take k2 := by
        rw [List.take_append_eq_append_take]
        have hz : k2 - (chunks.map FsStep.writeChunk).length = 0 := by
          rw [List.length_map]; omega
        rw [hz]
        simp
      rw [htake, run_steps, List.foldl_cons]
      have := hW k2 (fs_apply st FsStep.openTmp)
      rw [run_steps] at this
      rw [load_checkpoint, this]
      rfl
    · right
      have hlen : ((chunks.map FsStep.writeChunk) ++ [FsStep.renameOver]).length ≤ k2 := by
        rw [List.length_append, List.length_map]
        simp only [List.length_singleton]
        omega
      rw [List.take_of_length_le hlen]
      have hfix : run_steps st
          (FsStep.openTmp :: ((chunks.map FsStep.writeChunk) ++ [FsStep.renameOver])) =
          ⟨some data, none⟩ := by
        rw [← save_checkpoint_steps]
        exact hfull
      rw [load_checkpoint, hfix]

/-- Witness for C3: a two-chunk save interrupted mid-write still shows the
old snapshot, and the finished save shows the new one. -/
theorem C3_atomic_checkpoint_witness :
    (load_checkpoint (run_steps ⟨some "old", none⟩
        ((save_checkpoint_steps ["ab", "cd"]).take 2)) = some "old" ∨
      load_checkpoint (run_steps ⟨some "old", none⟩
        ((save_checkpoint_steps ["ab", "cd"]).take 2)) = some "abcd") ∧
    load_checkpoint (run_steps ⟨some "old", none⟩ (save_checkpoint_steps ["ab", "cd"])) =
      some "abcd" := by
  obtain ⟨h1, h2⟩ := C3_atomic_checkpoint ⟨some "old", none⟩ ["ab", "cd"] "abcd" (by decide)
  exact ⟨h1 2, h2⟩

end InboxZero
